import Mathlib

/-!
Verification development for the `ai-code-connect` repository.

The definitions below are a shallow embedding of the TypeScript sources:
  * `src/adapters/gemini.ts` — `GeminiAdapter` (`cleanResponse`, `getCommand`,
    `send`, `resetContext`, `setHasSession`);
  * `src/config.ts` — `loadConfig` and `DEFAULT_CONFIG`.

Strings are modelled as `List Char` (JavaScript strings are sequences of
UTF-16 code units; all characters appearing in the program are in the basic
multilingual plane, where code units and code points coincide, and string
lengths are computed with an explicit UTF-16 length function).  Each
JavaScript `String.prototype.replace(regexp, '')` call with a /g (or /gm)
regular expression is embedded as a left-to-right scanner over the character
list: at each position the concrete pattern is tried; on success the matched
characters are consumed (deleted) and scanning resumes after the match, which
is exactly the `lastIndex` semantics of a global replace.  Multiline anchors
(^/$) are tracked with a line-start flag fed by the JavaScript line
terminators.  Greedy quantifier + backtracking behaviour of each concrete
pattern is compiled to a deterministic matcher, documented per matcher.
-/

abbrev Str := List Char

/-- Whitespace class of JavaScript regular expressions (`\s`), also the set
trimmed by `String.prototype.trim`: ASCII whitespace, NBSP, Unicode space
separators, line separators and BOM. -/
def jsWsB (c : Char) : Bool :=
  c == ' ' || c == '\t' || c == '\n' || c == '\x0B' || c == '\x0C' || c == '\r' ||
  c == '\u00A0' || c == '\u1680' ||
  c == '\u2000' || c == '\u2001' || c == '\u2002' || c == '\u2003' || c == '\u2004' ||
  c == '\u2005' || c == '\u2006' || c == '\u2007' || c == '\u2008' || c == '\u2009' ||
  c == '\u200A' || c == '\u2028' || c == '\u2029' || c == '\u202F' || c == '\u205F' ||
  c == '\u3000' || c == '\uFEFF'

/-- JavaScript line terminators: positions after one of these match `^` and
positions before one of these match `$` under the /m flag. -/
def lineTermB (c : Char) : Bool :=
  c == '\n' || c == '\r' || c == '\u2028' || c == '\u2029'

/-- Spinner glyphs removed by `gemini.ts` line 81. -/
def spinnerB (c : Char) : Bool :=
  c == '⠋' || c == '⠙' || c == '⠹' || c == '⠸' || c == '⠼' ||
  c == '⠴' || c == '⠦' || c == '⠧' || c == '⠇' || c == '⠏'

/-- Box-drawing characters removed by `gemini.ts` line 84. -/
def boxB (c : Char) : Bool :=
  c == '╭' || c == '╮' || c == '╰' || c == '╯' || c == '│' || c == '─' ||
  c == '┌' || c == '┐' || c == '└' || c == '┘' || c == '├' || c == '┤' ||
  c == '┬' || c == '┴' || c == '┼' || c == '║' || c == '═' || c == '╔' ||
  c == '╗' || c == '╚' || c == '╝' || c == '╠' || c == '╣' || c == '╦' ||
  c == '╩' || c == '╬'

/-- Word character of JavaScript regular expressions (`\w`). -/
def wordB (c : Char) : Bool :=
  (97 ≤ c.toNat && c.toNat ≤ 122) || (65 ≤ c.toNat && c.toNat ≤ 90) ||
  (48 ≤ c.toNat && c.toNat ≤ 57) || c == '_'

/-- ASCII lower-casing, for the /i flag of the `no sandbox` pattern. -/
def asciiLower (c : Char) : Char :=
  if 'A' ≤ c ∧ c ≤ 'Z' then Char.ofNat (c.toNat + 32) else c

/-- UTF-16 length of a character sequence (what JavaScript `.length` returns):
astral-plane code points count as two code units. -/
def utf16Len (cs : Str) : Nat :=
  cs.foldr (fun c n => (if c.toNat ≥ 0x10000 then 2 else 1) + n) 0

/-- JavaScript `String.prototype.trim`: drop `jsWsB` characters from both ends. -/
def jsTrim (cs : Str) : Str :=
  ((cs.dropWhile jsWsB).reverse.dropWhile jsWsB).reverse

/-- JavaScript `split('\n')`: cut the character list at every newline. -/
def splitNl : Str → List Str
  | [] => [[]]
  | c :: rest =>
    if c = '\n' then [] :: splitNl rest
    else
      match splitNl rest with
      | l :: ls => (c :: l) :: ls
      | [] => [[c]]

/-- Occurrence test: does `lit` appear as a contiguous run somewhere in `cs`? -/
def occursIn (lit : Str) : Str → Bool
  | [] => lit.isEmpty
  | c :: rest => lit.isPrefixOf (c :: rest) || occursIn lit rest

/-- Three consecutive newline characters occur somewhere in the list. -/
def nlPair : Str → Bool
  | b :: c :: _ => b == '\n' && c == '\n'
  | _ => false

def hasTriple : Str → Bool
  | [] => false
  | a :: rest => (a == '\n' && nlPair rest) || hasTriple rest

/-- Adjacent pair: a whitespace character other than newline immediately
followed by a newline (trailing whitespace at the end of a line). -/
def hasTrailWs : Str → Bool
  | a :: b :: rest => (jsWsB a && a != '\n' && b == '\n') || hasTrailWs (b :: rest)
  | _ => false

/-- Length of the initial whitespace run (greedy `\s*`; deterministic because
every literal that follows it in the patterns begins with a non-whitespace
character, so shorter backtracks can never succeed). -/
def wsRunLen (cs : Str) : Nat := (cs.takeWhile jsWsB).length

/-- Number of characters the `.` of a JavaScript regex may still match on the
current line (everything up to the next line terminator). -/
def lineLen (cs : Str) : Nat := (cs.takeWhile (fun c => !lineTermB c)).length

/-- Matcher for a trailing `\s*$` under /m: greedily consume whitespace, then
backtrack to the longest prefix of the whitespace run whose end is at the end
of input or directly before a line terminator.  Returns the number of
characters consumed, or `none` when no backtrack position satisfies `$`. -/
def wsDollar (cs : Str) : Option Nat :=
  let r := wsRunLen cs
  if cs.drop r = [] then some r
  else (List.range r).reverse.find? (fun k => lineTermB (cs.getD k ' '))

/-- Matcher for a whole-pattern `^\s+$` under /m (line 144): like `wsDollar`
but at least one whitespace character must be consumed. -/
def wsPlusDollar (cs : Str) : Option Nat :=
  let r := wsRunLen cs
  if r = 0 then none
  else if cs.drop r = [] then some r
  else (List.range r).reverse.find? (fun k => 1 ≤ k && lineTermB (cs.getD k ' '))

/-- Greedy `.*` followed by a continuation: try every split point of the rest
of the current line, longest first (regex backtracking order), and return the
total number of characters consumed by `.*` plus the continuation. -/
def dotStarThen (k : Str → Option Nat) (cs : Str) : Option Nat :=
  (List.range (lineLen cs + 1)).reverse.findSome?
    (fun i => (k (cs.drop i)).map (fun n => i + n))

/-- Literal-prefix test on characters. -/
def litPre (lit cs : Str) : Bool := lit.isPrefixOf cs

/-- Case-insensitive literal-prefix test (for the /i pattern); the literal is
given in lower case. -/
def litPreCI (lit cs : Str) : Bool := lit.isPrefixOf (cs.map asciiLower)

/-- Fuel-driven scanner embedding `replace(/pat/g, '')` for an unanchored
pattern: at each position try the matcher; on `some (n+1)` delete the n+1
matched characters and resume after them, otherwise keep one character and
move on.  The fuel is set to the list length by the wrapper; every matcher
consumes at least one character per match, so the fuel never runs out. -/
def scanAllF (try' : Str → Option Nat) : Nat → Str → Str
  | 0, cs => cs
  | _ + 1, [] => []
  | fuel + 1, c :: rest =>
    match try' (c :: rest) with
    | some (n + 1) => scanAllF try' fuel (rest.drop n)
    | _ => c :: scanAllF try' fuel rest

def scanAll (try' : Str → Option Nat) (cs : Str) : Str := scanAllF try' cs.length cs

/-- Fuel-driven scanner for a `^`-anchored /gm pattern: the matcher is tried
only at line starts (position 0 or after a line terminator), matching the
multiline-`^` semantics of a global replace over the original string. -/
def scanLSF (try' : Str → Option Nat) : Nat → Bool → Str → Str
  | 0, _, cs => cs
  | _ + 1, _, [] => []
  | fuel + 1, flag, c :: rest =>
    match (if flag then try' (c :: rest) else none) with
    | some (n + 1) => scanLSF try' fuel (lineTermB ((c :: rest).getD n c)) (rest.drop n)
    | _ => c :: scanLSF try' fuel (lineTermB c) rest

def scanLS (try' : Str → Option Nat) (flag : Bool) (cs : Str) : Str :=
  scanLSF try' cs.length flag cs

/-! Concrete matchers, one per `replace` call of `cleanResponse`
(`src/adapters/gemini.ts` lines 72-101 and 143-144).  Each returns the total
number of characters consumed by a match starting at the head of its input,
or `none`.  Every matcher that can succeed consumes at least one character. -/

/-- Line 72, `\x1b\[[0-9;]*[a-zA-Z]`: CSI colour/style sequences.  The
`[0-9;]*` run is deterministic: its characters are never letters, so regex
backtracking cannot produce a shorter successful run. -/
def tryCsiColor (cs : Str) : Option Nat :=
  match cs with
  | '\x1b' :: '[' :: rest =>
    let ps := rest.takeWhile (fun c => (48 ≤ c.toNat && c.toNat ≤ 57) || c == ';')
    match rest.drop ps.length with
    | c :: _ =>
      if (97 ≤ c.toNat ∧ c.toNat ≤ 122) ∨ (65 ≤ c.toNat ∧ c.toNat ≤ 90) then
        some (2 + ps.length + 1)
      else none
    | [] => none
  | _ => none

/-- Line 73, `\x1b\[\??\d+[hl]`: private-mode set/reset sequences. -/
def tryCsiMode (cs : Str) : Option Nat :=
  match cs with
  | '\x1b' :: '[' :: rest =>
    let (q, rest') := match rest with
      | '?' :: r => (1, r)
      | r => (0, r)
    let ds := rest'.takeWhile (fun c => 48 ≤ c.toNat && c.toNat ≤ 57)
    if ds.length = 0 then none
    else
      match rest'.drop ds.length with
      | c :: _ => if c = 'h' ∨ c = 'l' then some (2 + q + ds.length + 1) else none
      | [] => none
  | _ => none

/-- Line 74, `\x1b\[\d* ?q`: cursor-shape sequences.  The optional space is
greedy; if taking it leaves no `q`, backtracking retries without it, which
succeeds only when the character after the digits is itself `q`. -/
def tryCsiCursor (cs : Str) : Option Nat :=
  match cs with
  | '\x1b' :: '[' :: rest =>
    let ds := rest.takeWhile (fun c => 48 ≤ c.toNat && c.toNat ≤ 57)
    match rest.drop ds.length with
    | ' ' :: 'q' :: _ => some (2 + ds.length + 2)
    | 'q' :: _ => some (2 + ds.length + 1)
    | _ => none
  | _ => none

/-- Line 75, `\x1b\][^\x07]*\x07`: OSC sequences terminated by BEL. -/
def tryOsc (cs : Str) : Option Nat :=
  match cs with
  | '\x1b' :: ']' :: rest =>
    let body := rest.takeWhile (fun c => c != '\x07')
    match rest.drop body.length with
    | _ :: _ => some (2 + body.length + 1)
    | [] => none
  | _ => none

/-- Line 78, `Loaded cached credentials\.?\s*` (unanchored): the literal, an
optional dot, then all following whitespace (newlines included). -/
def tryCreds (cs : Str) : Option Nat :=
  let lit := "Loaded cached credentials".data
  if litPre lit cs then
    let r1 := cs.drop lit.length
    match r1 with
    | '.' :: r2 => some (lit.length + 1 + wsRunLen r2)
    | _ => some (lit.length + wsRunLen r1)
  else none

/-- Line 87, `^\s*Using:.*MCP servers?\s*$`. -/
def tryUsing (cs : Str) : Option Nat :=
  let w := wsRunLen cs
  let r := cs.drop w
  if litPre "Using:".data r then
    (dotStarThen
      (fun t =>
        if litPre "MCP server".data t then
          let t10 := t.drop 10
          match t10 with
          | 's' :: t11 => ((wsDollar t11).map (fun n => 10 + 1 + n))
          | _ => ((wsDollar t10).map (fun n => 10 + n))
        else none)
      (r.drop 6)).map (fun n => w + 6 + n)
  else none

/-- Line 88, `^\s*~\/.*\(main\*?\).*$` (directory status line): after the
`~/` literal the line must contain `(main)` or `(main*)`; the trailing `.*$`
then extends the match to the end of the line. -/
def tryDirStatus (cs : Str) : Option Nat :=
  let w := wsRunLen cs
  let r := cs.drop w
  if litPre "~/".data r then
    (dotStarThen
      (fun t =>
        if litPre "(main".data t then
          match t.drop 5 with
          | '*' :: ')' :: t' => some (7 + lineLen t')
          | ')' :: t' => some (6 + lineLen t')
          | _ => none
        else none)
      (r.drop 2)).map (fun n => w + 2 + n)
  else none

/-- Line 89, `^\s*no sandbox.*$` with the /i flag. -/
def tryNoSandbox (cs : Str) : Option Nat :=
  let w := wsRunLen cs
  let r := cs.drop w
  if litPreCI "no sandbox".data r then some (w + 10 + lineLen (r.drop 10))
  else none

/-- Line 90, `^\s*auto\s*$`. -/
def tryAuto (cs : Str) : Option Nat :=
  let w := wsRunLen cs
  let r := cs.drop w
  if litPre "auto".data r then (wsDollar (r.drop 4)).map (fun n => w + 4 + n)
  else none

/-- Line 91, `^\s*Reading.*\(esc to cancel.*\)\s*$`. -/
def tryReading (cs : Str) : Option Nat :=
  let w := wsRunLen cs
  let r := cs.drop w
  if litPre "Reading".data r then
    (dotStarThen
      (fun t =>
        if litPre "(esc to cancel".data t then
          (dotStarThen
            (fun u =>
              match u with
              | ')' :: u' => (wsDollar u').map (fun n => 1 + n)
              | _ => none)
            (t.drop 14)).map (fun n => 14 + n)
        else none)
      (r.drop 7)).map (fun n => w + 7 + n)
  else none

/-- Line 92, `^\s*Type your message or @path.*$`. -/
def tryTypeMsg (cs : Str) : Option Nat :=
  let w := wsRunLen cs
  let r := cs.drop w
  let lit := "Type your message or @path".data
  if litPre lit r then some (w + lit.length + lineLen (r.drop lit.length))
  else none

/-- Line 93, `^\s*>\s*Type your message.*$`. -/
def tryGtType (cs : Str) : Option Nat :=
  let w := wsRunLen cs
  match cs.drop w with
  | '>' :: r =>
    let w2 := wsRunLen r
    let lit := "Type your message".data
    if litPre lit (r.drop w2) then
      some (w + 1 + w2 + lit.length + lineLen ((r.drop w2).drop lit.length))
    else none
  | _ => none

/-- Line 94, `^\s*\?\s*for shortcuts\s*$`. -/
def tryShortcuts (cs : Str) : Option Nat :=
  let w := wsRunLen cs
  match cs.drop w with
  | '?' :: r =>
    let w2 := wsRunLen r
    let lit := "for shortcuts".data
    if litPre lit (r.drop w2) then
      (wsDollar ((r.drop w2).drop lit.length)).map
        (fun n => w + 1 + w2 + lit.length + n)
    else none
  | _ => none

/-- Line 95, `^\s*Try ".*"\s*$` (suggestion lines). -/
def tryTrySugg (cs : Str) : Option Nat :=
  let w := wsRunLen cs
  let r := cs.drop w
  if litPre "Try \x22".data r then
    (dotStarThen
      (fun t =>
        match t with
        | '\x22' :: t' => (wsDollar t').map (fun n => 1 + n)
        | _ => none)
      (r.drop 5)).map (fun n => w + 5 + n)
  else none

/-- Line 98, `^\s*[✓✗]\s+\w+.*$` (tool status lines). -/
def tryToolStatus (cs : Str) : Option Nat :=
  let w := wsRunLen cs
  match cs.drop w with
  | c :: r =>
    if c = '✓' ∨ c = '✗' then
      let w2 := wsRunLen r
      if w2 = 0 then none
      else
        let ws := (r.drop w2).takeWhile wordB
        if ws.length = 0 then none
        else some (w + 1 + w2 + ws.length + lineLen ((r.drop w2).drop ws.length))
    else none
  | [] => none

/-- Line 101, `^>\s*$` (the bare prompt character; no leading `\s*`). -/
def tryPrompt (cs : Str) : Option Nat :=
  match cs with
  | '>' :: r => (wsDollar r).map (fun n => 1 + n)
  | _ => none

/-- Lines 72-101 of `gemini.ts`: the chrome-stripping stages, in source
order.  Character-class replaces are filters; line-anchored replaces start
with the line-start flag set (position 0 matches `^`). -/
def chromeStrip (cs : Str) : Str :=
  scanLS tryPrompt true
    (scanLS tryToolStatus true
      (scanLS tryTrySugg true
        (scanLS tryShortcuts true
          (scanLS tryGtType true
            (scanLS tryTypeMsg true
              (scanLS tryReading true
                (scanLS tryAuto true
                  (scanLS tryNoSandbox true
                    (scanLS tryDirStatus true
                      (scanLS tryUsing true
                        (((scanAll tryCreds
                            (scanAll tryOsc
                              (scanAll tryCsiCursor
                                (scanAll tryCsiMode
                                  (scanAll tryCsiColor cs))))).filter
                            (fun c => !spinnerB c)).filter
                          (fun c => !boxB c))))))))))))

/-- Test of line 123: `trimmed.match(/^[\s│─╭╮╰╯]*$/)` is non-null exactly
when every character of the (newline-free) trimmed line is in the class. -/
def chromeClassB (t : Str) : Bool :=
  t.all (fun c => jsWsB c || c == '│' || c == '─' || c == '╭' || c == '╮' ||
                  c == '╰' || c == '╯')

/-- Lines 105-135 of `gemini.ts`: the marker-block extraction loop, a direct
translation of the `for (const line of lines)` loop with its `inResponse`
flag, current block and accumulated `responseBlocks` (blocks are stored
joined by `\n`, as the source pushes `currentBlock.join('\n')`). -/
def extractLoop : List Str → Bool → List Str → List Str → List Str
  | [], _, cur, acc =>
    if cur.length > 0 then acc ++ [List.intercalate ['\n'] cur] else acc
  | line :: rest, inR, cur, acc =>
    let t := jsTrim line
    if t.head? = some '✦' then
      extractLoop rest true [(t.drop 1).dropWhile jsWsB]
        (if cur.length > 0 then acc ++ [List.intercalate ['\n'] cur] else acc)
    else if inR ∧ t ≠ [] then
      if chromeClassB t = false ∧ 2 < utf16Len t then
        extractLoop rest inR (cur ++ [line]) acc
      else extractLoop rest inR cur acc
    else if t = [] ∧ inR then
      extractLoop rest inR (cur ++ [[]]) acc
    else extractLoop rest inR cur acc

/-- Line 143, `replace(/\n{3,}/g, '\n\n')`, written as a single pass
over maximal newline runs: a pending count of consecutive newlines is
emitted as two newlines when it reached three or more. -/
def emitNl (k : Nat) (tail : Str) : Str :=
  List.replicate (if 3 ≤ k then 2 else k) '\n' ++ tail

def collapseNlGo : Nat → Str → Str
  | k, [] => emitNl k []
  | k, c :: rest =>
    if c = '\n' then collapseNlGo (k + 1) rest
    else emitNl k (c :: collapseNlGo 0 rest)

def collapseNl (cs : Str) : Str := collapseNlGo 0 cs

/-- Lines 105-140 of `gemini.ts`: run the extraction loop over the lines of
the chrome-stripped text; when it found blocks, join them with a blank line,
otherwise fall back to the chrome-stripped text itself. -/
def afterExtract (t : Str) : Str :=
  if (extractLoop (splitNl t) false [] []).length > 0
  then List.intercalate ['\n', '\n'] (extractLoop (splitNl t) false [] [])
  else t

/-- Lines 68-147 of `gemini.ts`: the full `cleanResponse` pipeline on
character lists — chrome stripping, marker-block extraction with fallback,
newline-run collapse, whitespace-only-line blanking, and final trim. -/
def cleanedList (cs : Str) : Str :=
  jsTrim (scanLS wsPlusDollar true (collapseNl (afterExtract (chromeStrip cs))))

/-- The adapter's `cleanResponse(rawOutput: string): string`. -/
def cleanResponse (s : String) : String := String.mk (cleanedList s.data)

/-! Embedding of the command construction, session flag, send outcome and
error reporting of `GeminiAdapter` (`src/adapters/gemini.ts` lines 27-181).
The adapter's one mutable field `hasActiveSession` is passed explicitly. -/

structure SendOptions where
  continueSession : Option Bool := none
  cwd : Option String := none
deriving DecidableEq

/-- Test `options?.continueSession !== false` of line 37: true when options
are absent, the field is absent, or the field is `true`. -/
def contSession : Option SendOptions → Bool
  | none => true
  | some o => o.continueSession != some false

def geminiName : String := "gemini"

def geminiDisplayName : String := "Gemini CLI"

/-- Lines 33-49, `getCommand(prompt, options)`: build the argv array.  The
`--resume latest` pair is prepended when continuation is enabled and a
session exists; the prompt is always pushed last, as a positional argument. -/
def getCommand (hasActiveSession : Bool) (prompt : String)
    (options : Option SendOptions) : List String :=
  let shouldContinue := contSession options && hasActiveSession
  let args := (if shouldContinue then ["--resume", "latest"] else []) ++ [prompt]
  geminiName :: args

/-- Result record of `runCommand` as consumed by `send` (exit code and the
two captured streams). -/
structure RunResult where
  exitCode : Int
  stdout : String
  stderr : String
deriving DecidableEq

def jsTrimS (s : String) : String := String.mk (jsTrim s.data)

/-- Lines 157-159: the message of the error thrown on a non-zero exit code;
`result.stderr.trim() || result.stdout.trim() || 'Unknown error'` selects the
first non-empty candidate. -/
def geminiErrorMsg (r : RunResult) : String :=
  "Gemini CLI exited with code " ++ toString r.exitCode ++ ": " ++
    (if jsTrimS r.stderr ≠ "" then jsTrimS r.stderr
     else if jsTrimS r.stdout ≠ "" then jsTrimS r.stdout
     else "Unknown error")

/-- Lines 149-167, value part of `send`: an error carrying the thrown
message on a non-zero exit code, the trimmed stdout otherwise. -/
def sendOutcome (r : RunResult) : Except String String :=
  if r.exitCode ≠ 0 then Except.error (geminiErrorMsg r)
  else Except.ok (jsTrimS r.stdout)

/-- Lines 149-167, state part of `send`: the throw on line 159 happens
before the assignment on line 163, so a failing send leaves the flag
untouched and a successful one sets it to true. -/
def sendFlagAfter (h : Bool) (r : RunResult) : Bool :=
  if r.exitCode ≠ 0 then h else true

/-- The operations of the adapter that can touch `hasActiveSession`:
`send` (lines 149-167), `resetContext` (lines 169-171) and
`setHasSession` (lines 179-181). -/
inductive AdapterOp where
  | send (r : RunResult)
  | resetContext
  | setHasSession (b : Bool)
deriving DecidableEq

/-- Effect of one adapter operation on the `hasActiveSession` flag. -/
def applyOp (h : Bool) : AdapterOp → Bool
  | AdapterOp.send r => sendFlagAfter h r
  | AdapterOp.resetContext => false
  | AdapterOp.setHasSession b => b

/-! Embedding of `src/config.ts`.  JavaScript objects produced by
`JSON.parse` and object-literal spreads are modelled as association lists in
insertion order, with the *last* binding of a key the visible one — exactly
the override behaviour of `{...a, ...b}`.  The file system and `JSON.parse`
are external to the repository and are passed as parameters: the optional
file content, and a parse function returning `none` when `JSON.parse`
throws. -/

inductive JsValue where
  | null
  | bool (b : Bool)
  | num (n : Int)
  | str (s : String)
  | arr (elems : List JsValue)
  | obj (fields : List (String × JsValue))

/-- Last binding of a key in a property list (later spreads override). -/
def lookupLast (k : String) (l : List (String × JsValue)) : Option JsValue :=
  (l.reverse.find? (fun p => p.1 == k)).map (fun p => p.2)

/-- Own enumerable properties contributed by spreading a value into an
object literal: objects contribute their fields, strings and arrays their
indexed elements, and primitives nothing. -/
def spreadProps : JsValue → List (String × JsValue)
  | JsValue.obj fields => fields
  | JsValue.str s => s.data.enum.map (fun p => (toString p.1, JsValue.str (String.mk [p.2])))
  | JsValue.arr elems => elems.enum.map (fun p => (toString p.1, p.2))
  | _ => []

/-- Property read `v.k` for the values on which `loadConfig` performs it
(never `null`, which throws and is handled separately): field lookup on
objects, indexed lookup on strings and arrays, `undefined` (`none`) on
primitives and absent keys. -/
def jsGet (v : JsValue) (k : String) : Option JsValue :=
  lookupLast k (spreadProps v)

/-- Lines 17-29 of `config.ts`, `DEFAULT_CONFIG.tools`. -/
def DEFAULT_tools : List (String × JsValue) :=
  [("claude", JsValue.obj
      [("command", JsValue.str "claude"),
       ("defaultFlags", JsValue.arr
         [JsValue.str "-p", JsValue.str "--output-format", JsValue.str "text"])]),
   ("gemini", JsValue.obj
      [("command", JsValue.str "gemini"),
       ("defaultFlags", JsValue.arr [JsValue.str "-o", JsValue.str "text"])])]

/-- Lines 17-29 of `config.ts`, `DEFAULT_CONFIG`. -/
def DEFAULT_CONFIG : List (String × JsValue) :=
  [("defaultTool", JsValue.str "claude"), ("tools", JsValue.obj DEFAULT_tools)]

/-- Lines 58-80 of `config.ts`, `loadConfig`: defaults when the file is
missing; parse the content otherwise; on a parse error, or on the
`TypeError` thrown by `loaded.tools` when the parsed value is `null`, the
catch block returns the defaults; otherwise the defaults are merged beneath
the loaded value, with the `tools` maps merged key-by-key. -/
def mergedTools (loaded : JsValue) : List (String × JsValue) :=
  DEFAULT_tools ++
    (match jsGet loaded "tools" with
     | none => []
     | some tv => spreadProps tv)

def loadConfig (file : Option String) (parse : String → Option JsValue) :
    List (String × JsValue) :=
  match file with
  | none => DEFAULT_CONFIG
  | some content =>
    match parse content with
    | none => DEFAULT_CONFIG
    | some JsValue.null => DEFAULT_CONFIG
    | some loaded =>
      DEFAULT_CONFIG ++ spreadProps loaded ++ [("tools", JsValue.obj (mergedTools loaded))]

/-! Specification-side description of the marker-block extraction, written
from the claim's wording, to be compared with the `extractLoop` translation
of the source.  Lines are grouped at marker lines; each group is the marker
line together with the run of following non-marker lines; a capture rule
says what a followed line contributes to its block. -/

/-- A line whose trimmed form starts with the `✦` marker. -/
def isMarkerLine (l : Str) : Bool := (jsTrim l).head? == some '✦'

/-- Marker line with the marker removed: the trimmed line minus the leading
`✦` and the whitespace after it (`trimmed.replace(/^✦\s*/, '')`). -/
def stripMarker (l : Str) : Str := ((jsTrim l).drop 1).dropWhile jsWsB

/-- Capture rule exactly as claim C3 states it: a blank line is kept (as an
empty line), and every other non-chrome line is kept whole. -/
def captureClaim (l : Str) : Option Str :=
  let t := jsTrim l
  if t = [] then some []
  else if chromeClassB t = false then some l
  else none

/-- Capture rule as amended: a non-blank line is kept only when, in
addition, its trimmed form is longer than 2 UTF-16 units. -/
def captureAmended (l : Str) : Option Str :=
  let t := jsTrim l
  if t = [] then some []
  else if chromeClassB t = false ∧ 2 < utf16Len t then some l
  else none

/-- Structural grouping: returns the run of lines before the first marker
and, for each marker line, the pair of that line and the run of non-marker
lines following it. -/
def mgAux : List Str → List Str × List (Str × List Str)
  | [] => ([], [])
  | l :: rest =>
    let p := mgAux rest
    if isMarkerLine l then ([], (l, p.1) :: p.2) else (l :: p.1, p.2)

def markerGroups (ls : List Str) : List (Str × List Str) := (mgAux ls).2

/-- Declarative blocks: one block per marker line — the stripped marker line
followed by the captured contributions of the lines up to the next marker,
joined by newlines. -/
def blocksWith (cap : Str → Option Str) (ls : List Str) : List Str :=
  (markerGroups ls).map
    (fun g => List.intercalate ['\n'] (stripMarker g.1 :: g.2.filterMap cap))

/-- Substring containment on strings, stated over the character data. -/
def strHas (hay needle : String) : Prop :=
  ∃ p q, hay.data = p ++ needle.data ++ q

/-- Key-presence test on a property list. -/
def hasKey (k : String) (l : List (String × JsValue)) : Bool :=
  l.any (fun p => p.1 == k)

/-- The matcher fails on every suffix of `cs`. -/
def AllFail (try' : Str → Option Nat) (cs : Str) : Prop :=
  ∀ s', s' <:+ cs → try' s' = none

/-- The matcher fails at every line start reached by the scanner's flag
chain. -/
def NoMatchLS (try' : Str → Option Nat) : Str → Bool → Prop
  | [], _ => True
  | c :: rest, flag =>
    (flag = true → try' (c :: rest) = none) ∧ NoMatchLS try' rest (lineTermB c)

/-- No carriage returns or Unicode line/paragraph separators: under this
condition the only line terminator is the newline and the character lists
split on `\n` are exactly the lines seen by the multiline anchors. -/
def crlfFreeB (cs : Str) : Bool :=
  cs.all (fun c => !(c == '\r' || c == '\u2028' || c == '\u2029'))

/-- The head of every line reached through the scanner's flag chain avoids
the `bad` characters. -/
def LineHeads (bad : Char → Bool) : Str → Bool → Prop
  | [], _ => True
  | c :: rest, flag =>
    (flag = true → bad c = false) ∧ LineHeads bad rest (lineTermB c)

/-- Characterisation of already-clean text: no artifact that any stage of
`cleanResponse` strips is present.  Character conditions kill the escape
sequence, glyph-filter and tool-status stages; substring conditions kill the
chrome-line stages (each of whose patterns must consume the given literal);
line conditions kill the prompt-character and whitespace-line stages; the
newline-run and trim conditions fix the final cleanup. -/
abbrev CleanText (s : String) : Prop :=
  s.data.all (fun c => !(c == '\x1b')) = true ∧
  s.data.all (fun c => !spinnerB c) = true ∧
  s.data.all (fun c => !boxB c) = true ∧
  s.data.all (fun c => !(c == '✦')) = true ∧
  s.data.all (fun c => !(c == '✓' || c == '✗')) = true ∧
  crlfFreeB s.data = true ∧
  occursIn ("Loaded cached credentials".data) s.data = false ∧
  occursIn ("Using:".data) s.data = false ∧
  occursIn ("~/".data) s.data = false ∧
  occursIn ("no sandbox".data) (s.data.map asciiLower) = false ∧
  occursIn ("auto".data) s.data = false ∧
  occursIn ("Reading".data) s.data = false ∧
  occursIn ("Type your message".data) s.data = false ∧
  occursIn ("for shortcuts".data) s.data = false ∧
  occursIn ("Try \x22".data) s.data = false ∧
  (splitNl s.data).all
    (fun l => match l.head? with | some c => !(c == '>') | none => true) = true ∧
  hasTrailWs s.data = false ∧
  hasTriple s.data = false ∧
  jsTrim s.data = s.data

theorem extractLoop_true (LS : List Str) : ∀ cur acc, cur ≠ [] →
    extractLoop LS true cur acc =
      acc ++ List.intercalate ['\n'] (cur ++ (mgAux LS).1.filterMap captureAmended)
          :: blocksWith captureAmended LS := by
  induction LS with
  | nil =>
    intro cur acc hcur
    simp [extractLoop, mgAux, blocksWith, markerGroups,
      List.length_pos.mpr hcur]
  | cons l rest ih =>
    intro cur acc hcur
    by_cases hm : (jsTrim l).head? = some '✦'
    · have hm' : isMarkerLine l = true := by
        simp [isMarkerLine, hm]
      rw [extractLoop]
      simp only [hm, if_pos]
      rw [if_pos (List.length_pos.mpr hcur)]
      rw [ih [(jsTrim l |>.drop 1).dropWhile jsWsB] (acc ++ [List.intercalate ['\n'] cur])
        (by simp)]
      simp [mgAux, hm', blocksWith, markerGroups, stripMarker]
    · have hm' : isMarkerLine l = false := by
        simp [isMarkerLine, hm]
      rw [extractLoop]
      simp only [hm, if_false, if_neg]
      by_cases ht : jsTrim l = []
      · have hcap : captureAmended l = some [] := by simp [captureAmended, ht]
        simp only [ht, if_neg (by simp : ¬ (True ∧ ([] : Str) ≠ [])), if_pos (And.intro rfl trivial)]
        rw [ih (cur ++ [[]]) acc (by simp)]
        simp [mgAux, hm', blocksWith, markerGroups, hcap, List.filterMap_cons]
      · by_cases hk : chromeClassB (jsTrim l) = false ∧ 2 < utf16Len (jsTrim l)
        · have hcap : captureAmended l = some l := by
            simp [captureAmended, ht, hk]
          simp only [if_pos (And.intro trivial ht), if_pos hk]
          rw [ih (cur ++ [l]) acc (by simp)]
          simp [mgAux, hm', blocksWith, markerGroups, hcap, List.filterMap_cons]
        · have hcap : captureAmended l = none := by
            simp only [captureAmended]
            rw [if_neg ht, if_neg hk]
          simp only [if_pos (And.intro trivial ht), if_neg hk]
          rw [ih cur acc hcur]
          simp [mgAux, hm', blocksWith, markerGroups, hcap, List.filterMap_cons]

theorem extractLoop_false (LS : List Str) : ∀ acc,
    extractLoop LS false [] acc = acc ++ blocksWith captureAmended LS := by
  induction LS with
  | nil => intro acc; simp [extractLoop, blocksWith, markerGroups, mgAux]
  | cons l rest ih =>
    intro acc
    by_cases hm : (jsTrim l).head? = some '✦'
    · have hm' : isMarkerLine l = true := by simp [isMarkerLine, hm]
      rw [extractLoop]
      simp only [hm, if_pos]
      rw [if_neg (by simp : ¬ (List.length ([] : List Str) > 0))]
      rw [extractLoop_true rest [(jsTrim l |>.drop 1).dropWhile jsWsB] acc (by simp)]
      simp [blocksWith, markerGroups, mgAux, hm', stripMarker]
    · have hm' : isMarkerLine l = false := by simp [isMarkerLine, hm]
      rw [extractLoop]
      simp only [hm, if_false, if_neg]
      have h2 : ¬ ((false = true) ∧ jsTrim l ≠ []) := by simp
      have h3 : ¬ (jsTrim l = [] ∧ (false = true)) := by simp
      rw [if_neg h2, if_neg h3, ih acc]
      simp [blocksWith, markerGroups, mgAux, hm']

theorem markerGroups_eq_nil (LS : List Str)
    (h : LS.all (fun l => !isMarkerLine l) = true) : markerGroups LS = [] := by
  induction LS with
  | nil => simp [markerGroups, mgAux]
  | cons l rest ih =>
    simp only [List.all_cons, Bool.and_eq_true, Bool.not_eq_true'] at h
    simp only [markerGroups, mgAux, h.1, if_false, Bool.false_eq_true]
    exact ih (by simpa using h.2)

theorem markerGroups_ne_nil (LS : List Str)
    (h : LS.any isMarkerLine = true) : markerGroups LS ≠ [] := by
  induction LS with
  | nil => simp at h
  | cons l rest ih =>
    simp only [List.any_cons, Bool.or_eq_true] at h
    by_cases hm : isMarkerLine l = true
    · simp [markerGroups, mgAux, hm]
    · have := h.resolve_left hm
      simp only [markerGroups, mgAux, hm, Bool.false_eq_true, if_false]
      exact ih this

/-- Claim C3 (amended): when some line of the chrome-stripped text has a
trimmed form starting with the `✦` marker, the result of `cleanResponse` is
the captured blocks — each beginning at a marker line with the marker prefix
removed and continuing through every following blank line and every
following non-chrome line whose trimmed form is longer than 2 UTF-16 code
units, up to the next marker line or the end — concatenated with one blank
line between blocks, then passed through the final cleanup (newline-run
collapse, whitespace-line blanking, trim). -/
theorem C3_marker_blocks (s : String)
    (h : (splitNl (chromeStrip s.data)).any isMarkerLine = true) :
    cleanResponse s =
      String.mk (jsTrim (scanLS wsPlusDollar true (collapseNl
        (List.intercalate ['\n', '\n']
          (blocksWith captureAmended (splitNl (chromeStrip s.data))))))) := by
  have hb := extractLoop_false (splitNl (chromeStrip s.data)) []
  have hne : blocksWith captureAmended (splitNl (chromeStrip s.data)) ≠ [] := by
    have := markerGroups_ne_nil _ h
    simpa [blocksWith] using this
  rw [List.nil_append] at hb
  unfold cleanResponse cleanedList afterExtract
  rw [hb, if_pos (List.length_pos.mpr hne)]

theorem C3_marker_blocks_witness :
    ((splitNl (chromeStrip ("✦ hi").data)).any isMarkerLine = true) ∧
    cleanResponse "✦ hi" =
      String.mk (jsTrim (scanLS wsPlusDollar true (collapseNl
        (List.intercalate ['\n', '\n']
          (blocksWith captureAmended (splitNl (chromeStrip ("✦ hi").data))))))) :=
  ⟨by decide, C3_marker_blocks "✦ hi" (by decide)⟩

/-- Claim C3, counterexample to the statement as frozen: on the input
`"✦ hi\nok"` the code's result is `"hi"`, while the blocks captured by the
claim's rule (which keeps every non-empty non-chrome line, with no length
threshold) joined with a blank line give `"hi\nok"`; the line `ok` is
dropped by the code because its trimmed form has UTF-16 length 2, not
more than 2. -/
theorem C3_counterexample :
    cleanResponse "✦ hi\nok" = "hi" ∧
    String.mk (List.intercalate ['\n', '\n']
      (blocksWith captureClaim (splitNl (chromeStrip ("✦ hi\nok").data)))) = "hi\nok" ∧
    ("hi" : String) ≠ "hi\nok" := by
  refine ⟨by decide, by decide, by decide⟩

/-- Claim C4: when no line of the chrome-stripped text has a trimmed form
starting with the `✦` marker, no block extraction is applied and
`cleanResponse` returns the chrome-stripped text itself, subjected only to
the final cleanup stages (newline-run collapse, whitespace-line blanking,
trim). -/
theorem C4_no_marker_fallback (s : String)
    (h : (splitNl (chromeStrip s.data)).all (fun l => !isMarkerLine l) = true) :
    cleanResponse s =
      String.mk (jsTrim (scanLS wsPlusDollar true (collapseNl (chromeStrip s.data)))) := by
  have hb := extractLoop_false (splitNl (chromeStrip s.data)) []
  have hz : blocksWith captureAmended (splitNl (chromeStrip s.data)) = [] := by
    simp [blocksWith, markerGroups_eq_nil _ h]
  rw [List.nil_append, hz] at hb
  unfold cleanResponse cleanedList afterExtract
  rw [hb, if_neg (by simp : ¬ (List.length ([] : List Str) > 0))]

theorem C4_no_marker_fallback_witness :
    ((splitNl (chromeStrip ("hello world").data)).all (fun l => !isMarkerLine l) = true) ∧
    cleanResponse "hello world" =
      String.mk (jsTrim (scanLS wsPlusDollar true
        (collapseNl (chromeStrip ("hello world").data)))) :=
  ⟨by decide, C4_no_marker_fallback "hello world" (by decide)⟩

/-- Claim C2: the spec's extraction example.  An input containing spinner
glyphs, box-drawing border lines, the tool-status line `✓ ReadFile` and the
marked block `✦ The answer is 42` cleans to exactly `The answer is 42`;
the result is trim-fixed (no leading or trailing whitespace) and consists
only of printable ASCII (no terminal control characters). -/
theorem C2_example_extraction :
    cleanResponse "⠋⠙⠹\n╭────╮\n│  x  │\n╰────╯\n✓ ReadFile\n✦ The answer is 42\n" =
      "The answer is 42" ∧
    jsTrim ("The answer is 42").data = ("The answer is 42").data ∧
    ("The answer is 42").data.all
      (fun c => 32 ≤ c.toNat && c.toNat ≤ 126) = true := by
  refine ⟨by decide, by decide, by decide⟩

/-- Claim C1, counterexample: `cleanResponse` is not idempotent.  On the
input `"✦✦ hi"` the first pass strips one marker and returns `"✦ hi"`; a
second pass sees the remaining marker as a fresh response indicator and
strips it too, returning `"hi"`. -/
theorem C1_counterexample :
    cleanResponse (cleanResponse "✦✦ hi") ≠ cleanResponse "✦✦ hi" := by
  decide

/-- Claim C5, counterexample: `\n{3,}` counts newline characters, not blank
lines.  The input `"a\n\n\nb"` contains a run of exactly two blank lines
(three newlines); the claim says such a run is left unchanged, but the code
collapses it to a single blank line, both at the collapse stage itself and
in the final result. -/
theorem C5_counterexample :
    collapseNl ("a\n\n\nb").data = ("a\n\nb").data ∧
    cleanResponse "a\n\n\nb" = "a\n\nb" ∧
    ("a\n\nb" : String) ≠ "a\n\n\nb" := by
  refine ⟨by decide, by decide, by decide⟩

/-- Claim C6: `cleanResponse` is total.  The embedding is a structurally
recursive (fuel-bounded) function on the character list, defined for every
input; the source function consists solely of regex replaces, a split, a
bounded loop, a join and a trim, none of which can throw, so every input —
malformed terminal bytes included — yields a result string. -/
theorem C6_cleanResponse_total : ∀ s : String, ∃ t : String, cleanResponse s = t :=
  fun s => ⟨String.mk (cleanedList s.data), rfl⟩

/-- Claim C7: `getCommand` yields the argv array
`['gemini', '--resume', 'latest', prompt]` when continuation is enabled and
a session exists, and `['gemini', prompt]` otherwise; in both cases the
prompt is the single, final, unmodified array element (it is never
interpolated into a shell string — the adapter only ever produces an argv
list). -/
theorem C7_getCommand (hs : Bool) (p : String) (opts : Option SendOptions) :
    getCommand hs p opts =
      (if contSession opts && hs then [geminiName, "--resume", "latest", p]
       else [geminiName, p]) ∧
    (getCommand hs p opts).getLast? = some p := by
  cases hc : contSession opts && hs <;>
    simp [getCommand, hc]

/-- Claim C8, counterexample to the statement as frozen: the flag is not set
to false *only* by `resetContext` — the adapter's `setHasSession` method
(gemini.ts lines 179-181) also sets it, in particular back to false from an
active session. -/
theorem C8_counterexample :
    applyOp true (AdapterOp.setHasSession false) = false ∧
    AdapterOp.setHasSession false ≠ AdapterOp.resetContext := by
  refine ⟨rfl, by decide⟩

/-- Claim C8 (amended): a send with exit code zero sets the continuation
flag (so it becomes true on the first successful send); a send with a
non-zero exit code throws and leaves the flag unchanged; `resetContext`
clears it; and the only operations that can take the flag from true to
false are `resetContext` and the explicit `setHasSession false` used when
loading persisted state. -/
theorem C8_flag_lifecycle (h : Bool) (r : RunResult) (b : Bool) :
    (r.exitCode = 0 → applyOp h (AdapterOp.send r) = true) ∧
    (r.exitCode ≠ 0 → applyOp h (AdapterOp.send r) = h ∧
        sendOutcome r = Except.error (geminiErrorMsg r)) ∧
    applyOp h AdapterOp.resetContext = false ∧
    applyOp h (AdapterOp.setHasSession b) = b ∧
    (∀ op, applyOp true op = false →
        op = AdapterOp.resetContext ∨ op = AdapterOp.setHasSession false) := by
  refine ⟨fun h0 => by simp [applyOp, sendFlagAfter, h0],
          fun hne => ⟨by simp [applyOp, sendFlagAfter, hne],
                      by simp [sendOutcome, hne]⟩,
          rfl, rfl, ?_⟩
  intro op hop
  cases op with
  | send r' =>
    exfalso
    simp only [applyOp, sendFlagAfter] at hop
    by_cases he : r'.exitCode ≠ 0 <;> simp [he] at hop
  | resetContext => exact Or.inl rfl
  | setHasSession b' =>
    simp only [applyOp] at hop
    exact Or.inr (by rw [hop])

theorem C8_flag_lifecycle_witness :
    applyOp false (AdapterOp.send ⟨0, "ok", ""⟩) = true ∧
    applyOp true AdapterOp.resetContext = false :=
  ⟨(C8_flag_lifecycle false ⟨0, "ok", ""⟩ true).1 rfl,
   (C8_flag_lifecycle true ⟨0, "ok", ""⟩ true).2.2.1⟩

/-- Claim C9: on a non-zero exit code, `send` fails with an error whose
message contains the tool's display name and the trimmed stderr, falling
back to the trimmed stdout when stderr trims to empty (and to a fixed text
when both do). -/
theorem C9_nonzero_exit (r : RunResult) (hne : r.exitCode ≠ 0) :
    sendOutcome r = Except.error (geminiErrorMsg r) ∧
    strHas (geminiErrorMsg r) geminiDisplayName ∧
    (jsTrimS r.stderr ≠ "" → strHas (geminiErrorMsg r) (jsTrimS r.stderr)) ∧
    (jsTrimS r.stderr = "" → jsTrimS r.stdout ≠ "" →
      strHas (geminiErrorMsg r) (jsTrimS r.stdout)) := by
  refine ⟨by simp [sendOutcome, hne], ?_, ?_, ?_⟩
  · refine ⟨[], (" exited with code ").data ++ (toString r.exitCode).data ++
      (": ").data ++ (if jsTrimS r.stderr ≠ "" then jsTrimS r.stderr
     else if jsTrimS r.stdout ≠ "" then jsTrimS r.stdout
     else "Unknown error").data, ?_⟩
    have hsplit : ("Gemini CLI exited with code " : String) =
        "Gemini CLI" ++ " exited with code " := by decide
    simp [geminiErrorMsg, geminiDisplayName, hsplit, String.data_append]
  · intro hs
    refine ⟨("Gemini CLI exited with code ").data ++ (toString r.exitCode).data ++
      (": ").data, [], ?_⟩
    simp [geminiErrorMsg, hs, String.data_append]
  · intro hs ho
    refine ⟨("Gemini CLI exited with code ").data ++ (toString r.exitCode).data ++
      (": ").data, [], ?_⟩
    simp [geminiErrorMsg, hs, ho, String.data_append]

theorem C9_nonzero_exit_witness :
    sendOutcome ⟨1, "", "auth error"⟩ =
      Except.error (geminiErrorMsg ⟨1, "", "auth error"⟩) ∧
    strHas (geminiErrorMsg ⟨1, "", "auth error"⟩) geminiDisplayName ∧
    strHas (geminiErrorMsg ⟨1, "", "auth error"⟩) (jsTrimS "auth error") :=
  ⟨(C9_nonzero_exit ⟨1, "", "auth error"⟩ (by decide)).1,
   (C9_nonzero_exit ⟨1, "", "auth error"⟩ (by decide)).2.1,
   (C9_nonzero_exit ⟨1, "", "auth error"⟩ (by decide)).2.2.1 (by decide)⟩

theorem lookupLast_append_single (k : String) (l : List (String × JsValue))
    (v : JsValue) : lookupLast k (l ++ [(k, v)]) = some v := by
  simp [lookupLast, List.find?]

theorem hasKey_append_left (k : String) (l l' : List (String × JsValue))
    (h : hasKey k l = true) : hasKey k (l ++ l') = true := by
  simp only [hasKey, List.any_append, Bool.or_eq_true]
  exact Or.inl h

theorem mergedTools_hasKeys (loaded : JsValue) :
    hasKey "claude" (mergedTools loaded) = true ∧
    hasKey "gemini" (mergedTools loaded) = true :=
  ⟨hasKey_append_left _ _ _ rfl, hasKey_append_left _ _ _ rfl⟩

theorem loadConfig_some (c : String) (parse : String → Option JsValue)
    (v : JsValue) (hp : parse c = some v) (hv : v ≠ JsValue.null) :
    loadConfig (some c) parse =
      DEFAULT_CONFIG ++ spreadProps v ++ [("tools", JsValue.obj (mergedTools v))] := by
  cases v with
  | null => exact absurd rfl hv
  | bool b => simp [loadConfig, hp]
  | num n => simp [loadConfig, hp]
  | str s => simp [loadConfig, hp]
  | arr xs => simp [loadConfig, hp]
  | obj fs => simp [loadConfig, hp]

theorem loadConfig_tools_entry (c : String) (parse : String → Option JsValue)
    (v : JsValue) (hp : parse c = some v) (hv : v ≠ JsValue.null) :
    ∃ T, lookupLast "tools" (loadConfig (some c) parse) = some (JsValue.obj T) ∧
      hasKey "claude" T = true ∧ hasKey "gemini" T = true := by
  refine ⟨mergedTools v, ?_, (mergedTools_hasKeys v).1, (mergedTools_hasKeys v).2⟩
  rw [loadConfig_some c parse v hp hv]
  exact lookupLast_append_single _ _ _

/-- Claim C10: `loadConfig` never throws — a missing file and an
unparseable file both yield the default configuration, whose `defaultTool`
is `claude`; and whatever the file content parses to, the returned
configuration's `tools` object always carries entries for both `claude` and
`gemini`, because the defaults are merged beneath any loaded value. -/
theorem C10_loadConfig (file : Option String) (parse : String → Option JsValue) :
    (file = none → loadConfig file parse = DEFAULT_CONFIG) ∧
    (∀ c, file = some c → parse c = none → loadConfig file parse = DEFAULT_CONFIG) ∧
    lookupLast "defaultTool" DEFAULT_CONFIG = some (JsValue.str "claude") ∧
    (∃ T, lookupLast "tools" (loadConfig file parse) = some (JsValue.obj T) ∧
       hasKey "claude" T = true ∧ hasKey "gemini" T = true) := by
  refine ⟨fun hf => by simp [loadConfig, hf], fun c hf hp => by simp [loadConfig, hf, hp],
    rfl, ?_⟩
  have hdef : lookupLast "tools" DEFAULT_CONFIG = some (JsValue.obj DEFAULT_tools) ∧
      hasKey "claude" DEFAULT_tools = true ∧ hasKey "gemini" DEFAULT_tools = true := by
    refine ⟨rfl, rfl, rfl⟩
  match hf : file with
  | none => exact ⟨DEFAULT_tools, by simpa [loadConfig] using hdef⟩
  | some c =>
    match hp : parse c with
    | none => exact ⟨DEFAULT_tools, by simpa [loadConfig, hp] using hdef⟩
    | some v =>
      match v with
      | JsValue.null => exact ⟨DEFAULT_tools, by simpa [loadConfig, hp] using hdef⟩
      | JsValue.bool b => exact loadConfig_tools_entry c parse _ hp (by simp)
      | JsValue.num n => exact loadConfig_tools_entry c parse _ hp (by simp)
      | JsValue.str s => exact loadConfig_tools_entry c parse _ hp (by simp)
      | JsValue.arr xs => exact loadConfig_tools_entry c parse _ hp (by simp)
      | JsValue.obj fs => exact loadConfig_tools_entry c parse _ hp (by simp)

theorem C10_loadConfig_witness :
    loadConfig none (fun _ => none) = DEFAULT_CONFIG ∧
    loadConfig (some "not json") (fun _ => none) = DEFAULT_CONFIG ∧
    lookupLast "defaultTool" DEFAULT_CONFIG = some (JsValue.str "claude") :=
  ⟨(C10_loadConfig none (fun _ => none)).1 rfl,
   (C10_loadConfig (some "not json") (fun _ => none)).2.1 "not json" rfl rfl,
   (C10_loadConfig none (fun _ => none)).2.2.1⟩


theorem hasTriple_cons_false {c : Char} {l : Str}
    (h : hasTriple (c :: l) = false) : hasTriple l = false := by
  rw [hasTriple, Bool.or_eq_false_iff] at h
  exact h.2

theorem hasTriple_append_false {l l' : Str}
    (h : hasTriple (l ++ l') = false) : hasTriple l' = false := by
  induction l with
  | nil => exact h
  | cons c t ih => exact ih (hasTriple_cons_false h)

theorem hasTriple_replicate_ge (k : Nat) (tail : Str) (hk : 3 ≤ k) :
    hasTriple (List.replicate k '\n' ++ tail) = true := by
  obtain ⟨j, rfl⟩ : ∃ j, k = j + 3 := ⟨k - 3, by omega⟩
  induction j with
  | zero => simp [List.replicate_succ, hasTriple, nlPair]
  | succ j ih =>
    have : j + 1 + 3 = (j + 3) + 1 := by omega
    rw [this, List.replicate_succ, List.cons_append, hasTriple, ih (by omega)]
    simp

theorem hasTriple_cons_of_ne {c : Char} {l : Str} (hc : c ≠ '\n')
    (h : hasTriple l = false) : hasTriple (c :: l) = false := by
  rw [hasTriple, h]
  simp [hc]

theorem nlPair_cons_ne {c : Char} {l : Str} (hc : c ≠ '\n') :
    nlPair (c :: l) = false := by
  cases l <;> simp [nlPair, hc]

theorem hasTriple_emit_prefix {j : Nat} {c : Char} {tail : Str} (hj : j ≤ 2)
    (hc : c ≠ '\n') (h : hasTriple tail = false) :
    hasTriple (List.replicate j '\n' ++ c :: tail) = false := by
  have h0 : hasTriple (c :: tail) = false := hasTriple_cons_of_ne hc h
  match j, hj with
  | 0, _ => simpa using h0
  | 1, _ =>
    simp only [List.replicate_succ, List.replicate_zero, List.cons_append,
      List.nil_append]
    rw [hasTriple, h0, nlPair_cons_ne hc]
    simp
  | 2, _ =>
    simp only [show (2 : Nat) = 1 + 1 from rfl, List.replicate_succ,
      List.replicate_zero, List.cons_append, List.nil_append]
    rw [hasTriple, hasTriple, h0, nlPair_cons_ne hc]
    simp [nlPair, hc]

theorem hasTriple_replicate_le {j : Nat} (hj : j ≤ 2) :
    hasTriple (List.replicate j '\n') = false := by
  match j, hj with
  | 0, _ => rfl
  | 1, _ => rfl
  | 2, _ => rfl

theorem collapseNlGo_noTriple (cs : Str) : ∀ k, hasTriple (collapseNlGo k cs) = false := by
  induction cs with
  | nil =>
    intro k
    rw [collapseNlGo, emitNl, List.append_nil]
    exact hasTriple_replicate_le (by split <;> omega)
  | cons c rest ih =>
    intro k
    rw [collapseNlGo]
    by_cases hc : c = '\n'
    · rw [if_pos hc]
      exact ih (k + 1)
    · rw [if_neg hc, emitNl]
      split
      · exact hasTriple_emit_prefix (by omega) hc (ih 0)
      · exact hasTriple_emit_prefix (by omega) hc (ih 0)

/-- No run of three newlines survives the collapse stage. -/
theorem collapseNl_noTriple (cs : Str) : hasTriple (collapseNl cs) = false :=
  collapseNlGo_noTriple cs 0

theorem collapseNlGo_of_noTriple (cs : Str) : ∀ k,
    hasTriple (List.replicate k '\n' ++ cs) = false →
    collapseNlGo k cs = List.replicate k '\n' ++ cs := by
  induction cs with
  | nil =>
    intro k h
    have hk : ¬ 3 ≤ k := fun h3 => by
      rw [hasTriple_replicate_ge k [] h3] at h
      exact Bool.noConfusion h
    rw [collapseNlGo, emitNl, if_neg hk]
  | cons c rest ih =>
    intro k h
    rw [collapseNlGo]
    by_cases hc : c = '\n'
    · subst hc
      have h' : List.replicate k '\n' ++ '\n' :: rest =
          List.replicate (k + 1) '\n' ++ rest := by
        rw [List.replicate_succ' k '\n']
        simp
      rw [if_pos rfl, ih (k + 1) (by rw [← h']; exact h), ← h']
    · have hk : ¬ 3 ≤ k := fun h3 => by
        rw [hasTriple_replicate_ge k (c :: rest) h3] at h
        exact Bool.noConfusion h
      have hrest : hasTriple rest = false :=
        hasTriple_cons_false (hasTriple_append_false h)
      rw [if_neg hc, emitNl, if_neg hk, ih 0 (by simpa using hrest)]
      simp

/-- Text containing no run of three newlines passes the collapse stage
unchanged. -/
theorem collapseNl_of_noTriple (cs : Str) (h : hasTriple cs = false) :
    collapseNl cs = cs := by
  have := collapseNlGo_of_noTriple cs 0 (by simpa using h)
  simpa [collapseNl] using this

theorem collapseNlGo_shift (k : Nat) : ∀ j (tail : Str),
    collapseNlGo j (List.replicate k '\n' ++ tail) = collapseNlGo (j + k) tail := by
  induction k with
  | zero => intro j tail; simp
  | succ k ih =>
    intro j tail
    rw [List.replicate_succ, List.cons_append, collapseNlGo, if_pos rfl, ih (j + 1)]
    have : j + 1 + k = j + (k + 1) := by omega
    rw [this]

/-- A run of three or more newlines (followed by a non-newline or the end)
is replaced by exactly two newlines. -/
theorem collapseNl_run (k : Nat) (tail : Str) (hk : 3 ≤ k)
    (ht : tail.head? ≠ some '\n') :
    collapseNl (List.replicate k '\n' ++ tail) = '\n' :: '\n' :: collapseNl tail := by
  rw [collapseNl, collapseNlGo_shift k 0 tail]
  match tail, ht with
  | [], _ =>
    simp only [collapseNlGo, emitNl, if_pos (by omega : 3 ≤ 0 + k)]
    simp [collapseNl, collapseNlGo, emitNl]
  | c :: rest, ht =>
    have hc : c ≠ '\n' := by
      intro hc
      exact ht (by rw [hc]; rfl)
    simp only [collapseNlGo, if_neg hc, emitNl, if_pos (by omega : 3 ≤ 0 + k)]
    simp [collapseNl, collapseNlGo, if_neg hc, emitNl]

theorem dropWhile_head_false {p : Char → Bool} : ∀ (l : Str) {c : Char} {t : Str},
    List.dropWhile p l = c :: t → p c = false := by
  intro l
  induction l with
  | nil => intro c t h; simp [List.dropWhile] at h
  | cons a as ih =>
    intro c t h
    rw [List.dropWhile_cons] at h
    by_cases hp : p a = true
    · rw [if_pos hp] at h
      exact ih h
    · rw [if_neg hp] at h
      injection h with h1 h2
      rw [← h1]
      exact Bool.eq_false_iff.mpr hp

theorem jsTrim_idem (x : Str) : jsTrim (jsTrim x) = jsTrim x := by
  have hback : (jsTrim x).reverse.dropWhile jsWsB = (jsTrim x).reverse := by
    rw [jsTrim, List.reverse_reverse]
    exact List.dropWhile_idempotent _ _
  have hfront : (jsTrim x).dropWhile jsWsB = jsTrim x := by
    cases hy : jsTrim x with
    | nil => rfl
    | cons c t =>
      have h1 := List.takeWhile_append_dropWhile (p := jsWsB)
        (l := (x.dropWhile jsWsB).reverse)
      have h2 := congrArg List.reverse h1
      rw [List.reverse_append, List.reverse_reverse] at h2
      have h3 : (jsTrim x) ++
          ((x.dropWhile jsWsB).reverse.takeWhile jsWsB).reverse = x.dropWhile jsWsB := by
        rw [jsTrim]
        exact h2
      rw [hy, List.cons_append] at h3
      have hc : jsWsB c = false := dropWhile_head_false x h3.symm
      rw [List.dropWhile_cons, hc]
      simp
  rw [jsTrim, hfront, hback, List.reverse_reverse]

/-- Claim C5 (amended): the collapse stage replaces every run of three or
more consecutive newlines (two or more blank lines) by exactly two newlines
(one blank line), leaves text containing no three-newline run unchanged,
never leaves such a run in its output, and the final result of
`cleanResponse` carries no leading or trailing whitespace (it equals its own
trim). -/
theorem C5_final_cleanup (cs tail : Str) (k : Nat) (s : String) :
    hasTriple (collapseNl cs) = false ∧
    (hasTriple cs = false → collapseNl cs = cs) ∧
    (3 ≤ k → tail.head? ≠ some '\n' →
      collapseNl (List.replicate k '\n' ++ tail) = '\n' :: '\n' :: collapseNl tail) ∧
    jsTrimS (cleanResponse s) = cleanResponse s := by
  refine ⟨collapseNl_noTriple cs, collapseNl_of_noTriple cs, collapseNl_run k tail, ?_⟩
  dsimp only [cleanResponse, cleanedList, jsTrimS]
  exact congrArg String.mk (jsTrim_idem _)

theorem C5_final_cleanup_witness :
    collapseNl ("a\n\nb").data = ("a\n\nb").data ∧
    collapseNl (List.replicate 3 '\n' ++ ("x").data) = '\n' :: '\n' :: collapseNl ("x").data :=
  ⟨(C5_final_cleanup ("a\n\nb").data [] 3 "x").2.1 (by decide),
   (C5_final_cleanup [] ("x").data 3 "x").2.2.1 (by decide) (by decide)⟩

/-! Machinery for claim C1: sufficient conditions under which every stage of
`cleanResponse` leaves its input unchanged. -/

theorem scanAllF_id (try' : Str → Option Nat) :
    ∀ (cs : Str) (fuel : Nat), AllFail try' cs → scanAllF try' fuel cs = cs := by
  intro cs
  induction cs with
  | nil => intro fuel _; cases fuel <;> rfl
  | cons c rest ih =>
    intro fuel h
    cases fuel with
    | zero => rfl
    | succ fuel =>
      rw [scanAllF, h (c :: rest) (List.suffix_refl _)]
      rw [ih fuel (fun s' hs => h s' (hs.trans (List.suffix_cons c rest)))]

theorem scanAll_id (try' : Str → Option Nat) (cs : Str) (h : AllFail try' cs) :
    scanAll try' cs = cs := scanAllF_id try' cs cs.length h

theorem scanLSF_id (try' : Str → Option Nat) :
    ∀ (cs : Str) (fuel : Nat) (flag : Bool),
      NoMatchLS try' cs flag → scanLSF try' fuel flag cs = cs := by
  intro cs
  induction cs with
  | nil => intro fuel flag _; cases fuel <;> rfl
  | cons c rest ih =>
    intro fuel flag h
    cases fuel with
    | zero => rfl
    | succ fuel =>
      rw [scanLSF]
      cases flag with
      | false =>
        rw [ih fuel (lineTermB c) h.2]
        simp
      | true =>
        rw [h.1 rfl, ih fuel (lineTermB c) h.2]
        simp

theorem scanLS_id (try' : Str → Option Nat) (flag : Bool) (cs : Str)
    (h : NoMatchLS try' cs flag) : scanLS try' flag cs = cs :=
  scanLSF_id try' cs cs.length flag h

theorem noMatchLS_of_allFail (try' : Str → Option Nat) :
    ∀ (cs : Str) (flag : Bool), AllFail try' cs → NoMatchLS try' cs flag := by
  intro cs
  induction cs with
  | nil => intro flag _; trivial
  | cons c rest ih =>
    intro flag h
    exact ⟨fun _ => h (c :: rest) (List.suffix_refl _),
      ih (lineTermB c) (fun s' hs => h s' (hs.trans (List.suffix_cons c rest)))⟩

theorem occursIn_of_suffix {lit s' cs : Str} (hs : s' <:+ cs)
    (hp : lit.isPrefixOf s' = true) : occursIn lit cs = true := by
  induction cs with
  | nil =>
    have : s' = [] := List.suffix_nil.mp hs
    subst this
    cases lit with
    | nil => rfl
    | cons a t => simp [List.isPrefixOf] at hp
  | cons c rest ih =>
    rcases List.suffix_cons_iff.mp hs with h1 | h2
    · subst h1
      rw [occursIn, hp]
      simp
    · rw [occursIn, ih h2]
      simp

theorem allFail_of_no_occur {lit : Str} (try' : Str → Option Nat)
    (hlit : ∀ s' n, try' s' = some n → lit.isPrefixOf (s'.dropWhile jsWsB) = true)
    {cs : Str} (hno : occursIn lit cs = false) : AllFail try' cs := by
  intro s' hs
  cases htry : try' s' with
  | none => rfl
  | some n =>
    have hp := hlit s' n htry
    have hsub : s'.dropWhile jsWsB <:+ cs :=
      (List.dropWhile_suffix jsWsB).trans hs
    rw [occursIn_of_suffix hsub hp] at hno
    exact Bool.noConfusion hno

theorem drop_wsRunLen (cs : Str) : cs.drop (wsRunLen cs) = cs.dropWhile jsWsB := by
  induction cs with
  | nil => rfl
  | cons c rest ih =>
    by_cases hc : jsWsB c = true
    · rw [wsRunLen, List.takeWhile_cons, hc]
      simp only [if_pos]
      rw [List.length_cons, List.drop_succ_cons, List.dropWhile_cons, hc]
      simp only [if_pos]
      exact ih
    · rw [wsRunLen, List.takeWhile_cons]
      simp [List.dropWhile_cons, hc]

theorem allFail_of_pre {lit : Str} (try' : Str → Option Nat)
    (hlit : ∀ s' n, try' s' = some n → ∃ t, t <:+ s' ∧ lit.isPrefixOf t = true)
    {cs : Str} (hno : occursIn lit cs = false) : AllFail try' cs := by
  intro s' hs
  cases htry : try' s' with
  | none => rfl
  | some n =>
    obtain ⟨t, ht, hp⟩ := hlit s' n htry
    rw [occursIn_of_suffix (ht.trans hs) hp] at hno
    exact Bool.noConfusion hno

theorem allFail_of_head {flt : Char → Bool} (try' : Str → Option Nat)
    (hhead : ∀ s' n, try' s' = some n → ∃ c t, s' = c :: t ∧ flt c = true)
    {cs : Str} (hno : cs.all (fun c => !flt c) = true) : AllFail try' cs := by
  intro s' hs
  cases htry : try' s' with
  | none => rfl
  | some n =>
    obtain ⟨c, t, rfl, hc⟩ := hhead s' n htry
    have hmem : c ∈ cs := hs.subset (List.mem_cons_self c t)
    rw [List.all_eq_true] at hno
    have := hno c hmem
    rw [hc] at this
    exact Bool.noConfusion this

theorem tryCsiColor_head {s' : Str} {n : Nat} (h : tryCsiColor s' = some n) :
    ∃ c t, s' = c :: t ∧ (c == '\x1b') = true := by
  unfold tryCsiColor at h
  split at h
  · next rest => exact ⟨'\x1b', '[' :: rest, rfl, rfl⟩
  · exact absurd h (by simp)

theorem tryCsiMode_head {s' : Str} {n : Nat} (h : tryCsiMode s' = some n) :
    ∃ c t, s' = c :: t ∧ (c == '\x1b') = true := by
  unfold tryCsiMode at h
  split at h
  · next rest => exact ⟨'\x1b', '[' :: rest, rfl, rfl⟩
  · exact absurd h (by simp)

theorem tryCsiCursor_head {s' : Str} {n : Nat} (h : tryCsiCursor s' = some n) :
    ∃ c t, s' = c :: t ∧ (c == '\x1b') = true := by
  unfold tryCsiCursor at h
  split at h
  · next rest => exact ⟨'\x1b', '[' :: rest, rfl, rfl⟩
  · exact absurd h (by simp)

theorem tryOsc_head {s' : Str} {n : Nat} (h : tryOsc s' = some n) :
    ∃ c t, s' = c :: t ∧ (c == '\x1b') = true := by
  unfold tryOsc at h
  split at h
  · next rest => exact ⟨'\x1b', ']' :: rest, rfl, rfl⟩
  · exact absurd h (by simp)

theorem tryCreds_pre {s' : Str} {n : Nat} (h : tryCreds s' = some n) :
    ∃ t, t <:+ s' ∧ ("Loaded cached credentials".data).isPrefixOf t = true := by
  refine ⟨s', List.suffix_refl s', ?_⟩
  by_contra hq
  rw [Bool.not_eq_true] at hq
  simp only [tryCreds, litPre, hq, Bool.false_eq_true, if_false] at h
  exact Option.noConfusion h

theorem tryUsing_pre {s' : Str} {n : Nat} (h : tryUsing s' = some n) :
    ∃ t, t <:+ s' ∧ ("Using:".data).isPrefixOf t = true := by
  refine ⟨s'.dropWhile jsWsB, List.dropWhile_suffix jsWsB, ?_⟩
  by_contra hq
  rw [Bool.not_eq_true] at hq
  simp only [tryUsing, litPre, drop_wsRunLen, hq, Bool.false_eq_true, if_false] at h
  exact Option.noConfusion h

theorem tryDirStatus_pre {s' : Str} {n : Nat} (h : tryDirStatus s' = some n) :
    ∃ t, t <:+ s' ∧ ("~/".data).isPrefixOf t = true := by
  refine ⟨s'.dropWhile jsWsB, List.dropWhile_suffix jsWsB, ?_⟩
  by_contra hq
  rw [Bool.not_eq_true] at hq
  simp only [tryDirStatus, litPre, drop_wsRunLen, hq, Bool.false_eq_true, if_false] at h
  exact Option.noConfusion h

theorem tryAuto_pre {s' : Str} {n : Nat} (h : tryAuto s' = some n) :
    ∃ t, t <:+ s' ∧ ("auto".data).isPrefixOf t = true := by
  refine ⟨s'.dropWhile jsWsB, List.dropWhile_suffix jsWsB, ?_⟩
  by_contra hq
  rw [Bool.not_eq_true] at hq
  simp only [tryAuto, litPre, drop_wsRunLen, hq, Bool.false_eq_true, if_false] at h
  exact Option.noConfusion h

theorem tryReading_pre {s' : Str} {n : Nat} (h : tryReading s' = some n) :
    ∃ t, t <:+ s' ∧ ("Reading".data).isPrefixOf t = true := by
  refine ⟨s'.dropWhile jsWsB, List.dropWhile_suffix jsWsB, ?_⟩
  by_contra hq
  rw [Bool.not_eq_true] at hq
  simp only [tryReading, litPre, drop_wsRunLen, hq, Bool.false_eq_true, if_false] at h
  exact Option.noConfusion h

theorem tryTrySugg_pre {s' : Str} {n : Nat} (h : tryTrySugg s' = some n) :
    ∃ t, t <:+ s' ∧ ("Try \x22".data).isPrefixOf t = true := by
  refine ⟨s'.dropWhile jsWsB, List.dropWhile_suffix jsWsB, ?_⟩
  by_contra hq
  rw [Bool.not_eq_true] at hq
  simp only [tryTrySugg, litPre, drop_wsRunLen, hq, Bool.false_eq_true, if_false] at h
  exact Option.noConfusion h

theorem tryTypeMsg_pre {s' : Str} {n : Nat} (h : tryTypeMsg s' = some n) :
    ∃ t, t <:+ s' ∧ ("Type your message".data).isPrefixOf t = true := by
  refine ⟨s'.dropWhile jsWsB, List.dropWhile_suffix jsWsB, ?_⟩
  cases hq : ("Type your message or @path".data).isPrefixOf (s'.dropWhile jsWsB) with
  | false =>
    simp only [tryTypeMsg, litPre, drop_wsRunLen, hq, Bool.false_eq_true, if_false] at h
    exact absurd h (by simp)
  | true =>
    have h1 : "Type your message".data <+: "Type your message or @path".data := by decide
    have h2 := List.isPrefixOf_iff_prefix.mp hq
    exact List.isPrefixOf_iff_prefix.mpr (h1.trans h2)

theorem tryGtType_pre {s' : Str} {n : Nat} (h : tryGtType s' = some n) :
    ∃ t, t <:+ s' ∧ ("Type your message".data).isPrefixOf t = true := by
  simp only [tryGtType] at h
  split at h
  · next r heq =>
    refine ⟨r.drop (wsRunLen r), ?_, ?_⟩
    · have h1 : List.drop (wsRunLen s') s' <:+ s' := List.drop_suffix _ _
      rw [heq] at h1
      exact (List.drop_suffix _ _).trans ((List.suffix_cons '>' r).trans h1)
    · by_contra hq
      rw [Bool.not_eq_true] at hq
      simp only [litPre, hq, Bool.false_eq_true, if_false] at h
      exact Option.noConfusion h
  · exact absurd h (by simp)

theorem tryShortcuts_pre {s' : Str} {n : Nat} (h : tryShortcuts s' = some n) :
    ∃ t, t <:+ s' ∧ ("for shortcuts".data).isPrefixOf t = true := by
  simp only [tryShortcuts] at h
  split at h
  · next r heq =>
    refine ⟨r.drop (wsRunLen r), ?_, ?_⟩
    · have h1 : List.drop (wsRunLen s') s' <:+ s' := List.drop_suffix _ _
      rw [heq] at h1
      exact (List.drop_suffix _ _).trans ((List.suffix_cons '?' r).trans h1)
    · by_contra hq
      rw [Bool.not_eq_true] at hq
      simp only [litPre, hq, Bool.false_eq_true, if_false] at h
      exact Option.noConfusion h
  · exact absurd h (by simp)

theorem tryNoSandbox_pre {s' : Str} {n : Nat} (h : tryNoSandbox s' = some n) :
    ∃ t, t <:+ s'.map asciiLower ∧ ("no sandbox".data).isPrefixOf t = true := by
  refine ⟨(s'.dropWhile jsWsB).map asciiLower,
    (List.dropWhile_suffix jsWsB).map asciiLower, ?_⟩
  by_contra hq
  rw [Bool.not_eq_true] at hq
  simp only [tryNoSandbox, litPreCI, drop_wsRunLen, hq, Bool.false_eq_true, if_false] at h
  exact Option.noConfusion h

theorem allFail_noSandbox {cs : Str}
    (hno : occursIn ("no sandbox".data) (cs.map asciiLower) = false) :
    AllFail tryNoSandbox cs := by
  intro s' hs
  cases htry : tryNoSandbox s' with
  | none => rfl
  | some n =>
    obtain ⟨t, ht, hp⟩ := tryNoSandbox_pre htry
    rw [occursIn_of_suffix (ht.trans (hs.map asciiLower)) hp] at hno
    exact Bool.noConfusion hno

theorem tryToolStatus_mem {s' : Str} {n : Nat} (h : tryToolStatus s' = some n) :
    ∃ c, c ∈ s' ∧ (c == '✓' || c == '✗') = true := by
  simp only [tryToolStatus] at h
  split at h
  · next c r heq =>
    by_cases hc : c = '✓' ∨ c = '✗'
    · refine ⟨c, ?_, by rcases hc with h1 | h1 <;> simp [h1]⟩
      have h1 : List.drop (wsRunLen s') s' <:+ s' := List.drop_suffix _ _
      rw [heq] at h1
      exact h1.subset (List.mem_cons_self c r)
    · rw [if_neg hc] at h
      exact absurd h (by simp)
  · exact absurd h (by simp)

theorem allFail_toolStatus {cs : Str}
    (hno : cs.all (fun c => !(c == '✓' || c == '✗')) = true) :
    AllFail tryToolStatus cs := by
  intro s' hs
  cases htry : tryToolStatus s' with
  | none => rfl
  | some n =>
    obtain ⟨c, hmem, hc⟩ := tryToolStatus_mem htry
    rw [List.all_eq_true] at hno
    have := hno c (hs.subset hmem)
    rw [hc] at this
    exact Bool.noConfusion this

theorem noMatchLS_of_lineHeads {bad : Char → Bool} (try' : Str → Option Nat)
    (hfail : ∀ c r, bad c = false → try' (c :: r) = none) :
    ∀ (cs : Str) (flag : Bool), LineHeads bad cs flag → NoMatchLS try' cs flag := by
  intro cs
  induction cs with
  | nil => intro flag _; trivial
  | cons c rest ih =>
    intro flag h
    exact ⟨fun hf => hfail c rest (h.1 hf), ih (lineTermB c) h.2⟩

theorem splitNl_ne_nil : ∀ cs : Str, splitNl cs ≠ [] := by
  intro cs
  cases cs with
  | nil => simp [splitNl]
  | cons c rest =>
    rw [splitNl]
    by_cases hc : c = '\n'
    · simp [hc]
    · rw [if_neg hc]
      cases splitNl rest <;> simp

theorem lineTermB_of_crlfFree {c : Char}
    (h : (!(c == '\r' || c == '\u2028' || c == '\u2029')) = true) :
    lineTermB c = (c == '\n') := by
  simp only [Bool.not_eq_true', Bool.or_eq_false_iff] at h
  simp [lineTermB, h.1.1, h.1.2, h.2]

theorem lineHeads_of_lines {bad : Char → Bool} (hnl : bad '\n' = false) :
    ∀ (cs : Str) (flag : Bool), crlfFreeB cs = true →
    ((splitNl cs).drop (if flag then 0 else 1)).all
      (fun l => match l.head? with | some c => !bad c | none => true) = true →
    LineHeads bad cs flag := by
  intro cs
  induction cs with
  | nil => intro flag _ _; trivial
  | cons c rest ih =>
    intro flag hcr hl
    rw [crlfFreeB, List.all_cons, Bool.and_eq_true] at hcr
    have hltc : lineTermB c = (c == '\n') := lineTermB_of_crlfFree hcr.1
    by_cases hcN : c = '\n'
    · subst hcN
      have hrest : (splitNl rest).all
          (fun l => match l.head? with | some c => !bad c | none => true) = true := by
        rw [splitNl, if_pos rfl] at hl
        cases flag with
        | true => simpa using hl
        | false => simpa using hl
      refine ⟨fun _ => hnl, ?_⟩
      rw [hltc]
      simp only [beq_self_eq_true]
      exact ih true hcr.2 (by simpa using hrest)
    · cases hsp : splitNl rest with
      | nil => exact absurd hsp (splitNl_ne_nil rest)
      | cons l ls =>
        have hsp' : splitNl (c :: rest) = (c :: l) :: ls := by
          rw [splitNl, if_neg hcN, hsp]
        have hls : ls.all
            (fun l => match l.head? with | some c => !bad c | none => true) = true := by
          rw [hsp'] at hl
          cases flag with
          | true =>
            simp only [if_pos, List.drop_zero, List.all_cons, Bool.and_eq_true] at hl
            exact hl.2
          | false => simpa using hl
        refine ⟨?_, ?_⟩
        · intro hf
          subst hf
          rw [hsp'] at hl
          simp only [if_pos, List.drop_zero, List.all_cons, Bool.and_eq_true] at hl
          have := hl.1
          simpa using this
        · rw [hltc]
          have : (c == '\n') = false := by simp [hcN]
          rw [this]
          refine ih false hcr.2 ?_
          rw [hsp]
          simpa using hls

theorem tryPrompt_fail (c : Char) (r : Str) (hc : (c == '>') = false) :
    tryPrompt (c :: r) = none := by
  unfold tryPrompt
  split
  · next r' heq =>
    injection heq with h1 h2
    rw [h1] at hc
    simp at hc
  · rfl

theorem ws_run_getD : ∀ (cs : Str) (j : Nat), j < wsRunLen cs →
    jsWsB (cs.getD j ' ') = true := by
  intro cs
  induction cs with
  | nil => intro j hj; simp [wsRunLen] at hj
  | cons c rest ih =>
    intro j hj
    rw [wsRunLen, List.takeWhile_cons] at hj
    by_cases hc : jsWsB c = true
    · rw [hc] at hj
      simp only [if_pos] at hj
      rw [List.length_cons] at hj
      cases j with
      | zero => rw [List.getD_cons_zero]; exact hc
      | succ j => rw [List.getD_cons_succ]; exact ih j (by rw [wsRunLen]; omega)
    · rw [Bool.not_eq_true] at hc
      rw [hc] at hj
      simp at hj

theorem hasTrailWs_cons_mono {a : Char} {l : Str} (h : hasTrailWs l = true) :
    hasTrailWs (a :: l) = true := by
  cases l with
  | nil => simp [hasTrailWs] at h
  | cons b t =>
    rw [hasTrailWs, h]
    simp

theorem hasTrailWs_cons_false {a : Char} {l : Str} (h : hasTrailWs (a :: l) = false) :
    hasTrailWs l = false := by
  cases l with
  | nil => rfl
  | cons b t =>
    rw [hasTrailWs, Bool.or_eq_false_iff] at h
    exact h.2

theorem trailWs_at : ∀ (cs : Str) (i : Nat), i + 1 < cs.length →
    jsWsB (cs.getD i ' ') = true → cs.getD i ' ' ≠ '\n' → cs.getD (i + 1) ' ' = '\n' →
    hasTrailWs cs = true := by
  intro cs
  induction cs with
  | nil => intro i hi; simp at hi
  | cons a rest ih =>
    intro i hi hw hne hnl
    cases i with
    | zero =>
      rw [List.getD_cons_zero] at hw hne
      rw [List.getD_cons_succ, List.getD_eq_getElem?_getD] at hnl
      rw [List.length_cons] at hi
      cases rest with
      | nil => simp at hi
      | cons b t =>
        have hb : b = '\n' := by
          rw [List.getElem?_eq_getElem (by simp : 0 < (b :: t).length)] at hnl
          simpa using hnl
        rw [hasTrailWs, hb, hw]
        simp [hne]
    | succ i =>
      rw [List.getD_cons_succ] at hw hne hnl
      rw [List.length_cons] at hi
      exact hasTrailWs_cons_mono (ih i (by omega) hw hne hnl)

theorem hasTriple_cons_mono {a : Char} {l : Str} (h : hasTriple l = true) :
    hasTriple (a :: l) = true := by
  rw [hasTriple, h]
  simp

theorem nlPair_at (cs : Str) (h1 : 1 < cs.length) (h0 : cs.getD 0 ' ' = '\n')
    (h2 : cs.getD 1 ' ' = '\n') : nlPair cs = true := by
  cases cs with
  | nil => simp at h1
  | cons a rest =>
    cases rest with
    | nil => simp at h1
    | cons b t =>
      rw [List.getD_cons_zero] at h0
      rw [List.getD_cons_succ, List.getD_cons_zero] at h2
      simp [nlPair, h0, h2]

theorem triple_at : ∀ (cs : Str) (i : Nat), i + 2 < cs.length →
    cs.getD i ' ' = '\n' → cs.getD (i + 1) ' ' = '\n' → cs.getD (i + 2) ' ' = '\n' →
    hasTriple cs = true := by
  intro cs
  induction cs with
  | nil => intro i hi; simp at hi
  | cons a rest ih =>
    intro i hi h0 h1 h2
    cases i with
    | zero =>
      rw [List.getD_cons_zero] at h0
      rw [List.getD_cons_succ] at h1 h2
      rw [List.length_cons] at hi
      rw [hasTriple, h0, nlPair_at rest (by omega) h1 h2]
      simp
    | succ i =>
      rw [List.getD_cons_succ] at h0 h1 h2
      rw [List.length_cons] at hi
      exact hasTriple_cons_mono (ih i (by omega) h0 h1 h2)

theorem getLast?_eq_getD {cs : Str} (h : cs ≠ []) :
    cs.getLast? = some (cs.getD (cs.length - 1) ' ') := by
  have hlen : cs.length - 1 < cs.length := by
    cases cs with
    | nil => exact absurd rfl h
    | cons a t => simp
  rw [List.getLast?_eq_getElem?, List.getD_eq_getElem?_getD,
    List.getElem?_eq_getElem hlen]
  rfl

theorem wsPlus_some_shape {cs : Str} {n : Nat} (h : wsPlusDollar cs = some n) :
    1 ≤ n ∧ (∀ j, j < n → jsWsB (cs.getD j ' ') = true) ∧
    (cs.length = n ∨ (n < cs.length ∧ lineTermB (cs.getD n ' ') = true)) := by
  have hr : wsRunLen cs ≤ cs.length := by
    rw [wsRunLen]
    exact (List.takeWhile_sublist jsWsB).length_le
  rw [wsPlusDollar] at h
  by_cases h0 : wsRunLen cs = 0
  · rw [if_pos h0] at h
    exact absurd h (by simp)
  · rw [if_neg h0] at h
    by_cases hd : cs.drop (wsRunLen cs) = []
    · rw [if_pos hd] at h
      injection h with hn
      subst hn
      have hlen : cs.length ≤ wsRunLen cs := List.drop_eq_nil_iff.mp hd
      refine ⟨by omega, fun j hj => ws_run_getD cs j hj, Or.inl (by omega)⟩
    · rw [if_neg hd] at h
      have hp := List.find?_some h
      have hmem := List.mem_of_find?_eq_some h
      rw [List.mem_reverse, List.mem_range] at hmem
      rw [Bool.and_eq_true, decide_eq_true_eq] at hp
      exact ⟨hp.1, fun j hj => ws_run_getD cs j (by omega),
        Or.inr ⟨by omega, hp.2⟩⟩

theorem crlf_char {cs : Str} (hcr : crlfFreeB cs = true) {c : Char} (hc : c ∈ cs) :
    lineTermB c = (c == '\n') := by
  rw [crlfFreeB, List.all_eq_true] at hcr
  exact lineTermB_of_crlfFree (hcr c hc)

theorem wsPlus_none_main (cs : Str)
    (hcr : crlfFreeB cs = true)
    (htw : hasTrailWs cs = false)
    (htr : hasTriple cs = false)
    (hlast : ∀ c, cs.getLast? = some c → jsWsB c = false)
    (hprev : (∀ c, cs.head? = some c → jsWsB c = false) ∨ nlPair cs = false) :
    wsPlusDollar cs = none := by
  cases hmatch : wsPlusDollar cs with
  | none => rfl
  | some n =>
    exfalso
    obtain ⟨hn1, hws, hend⟩ := wsPlus_some_shape hmatch
    have hlen1 : 1 ≤ cs.length := by
      rcases hend with h | h
      · omega
      · exact le_of_lt (lt_of_le_of_lt (by omega) h.1)
    have hne : cs ≠ [] := by
      intro he
      rw [he] at hlen1
      simp at hlen1
    have hhead : jsWsB (cs.getD 0 ' ') = true := hws 0 (by omega)
    rcases hprev with hl | hnp
    · cases hcs : cs with
      | nil => exact hne hcs
      | cons c0 t =>
        have := hl c0 (by rw [hcs]; rfl)
        rw [hcs, List.getD_cons_zero] at hhead
        rw [hhead] at this
        exact Bool.noConfusion this
    · rcases hend with hlen | ⟨hlt, hterm⟩
      · -- the whitespace run reaches the end of the string
        have hlastD := getLast?_eq_getD hne
        have := hlast _ hlastD
        rw [hlen] at this
        rw [hws (n - 1) (by omega)] at this
        exact Bool.noConfusion this
      · -- a newline follows the whitespace run
        have hmem : cs.getD n ' ' ∈ cs := by
          rw [List.getD_eq_getElem?_getD, List.getElem?_eq_getElem hlt]
          exact List.getElem_mem hlt
        have hnl : cs.getD n ' ' = '\n' := by
          have := crlf_char hcr hmem
          rw [this] at hterm
          exact eq_of_beq hterm
        have hwa : jsWsB (cs.getD (n - 1) ' ') = true := hws (n - 1) (by omega)
        by_cases ha : cs.getD (n - 1) ' ' = '\n'
        · by_cases hn1' : n = 1
          · subst hn1'
            rw [nlPair_at cs (by omega) (by simpa using ha) (by simpa using hnl)] at hnp
            exact Bool.noConfusion hnp
          · have hn2 : 2 ≤ n := by omega
            have hwc : jsWsB (cs.getD (n - 2) ' ') = true := hws (n - 2) (by omega)
            by_cases hc2 : cs.getD (n - 2) ' ' = '\n'
            · have := triple_at cs (n - 2) (by omega) hc2
                (by rw [show n - 2 + 1 = n - 1 by omega]; exact ha)
                (by rw [show n - 2 + 2 = n by omega]; exact hnl)
              rw [this] at htr
              exact Bool.noConfusion htr
            · have := trailWs_at cs (n - 2) (by omega) hwc hc2
                (by rw [show n - 2 + 1 = n - 1 by omega]; exact ha)
              rw [this] at htw
              exact Bool.noConfusion htw
        · have := trailWs_at cs (n - 1) (by omega) hwa ha
            (by rw [show n - 1 + 1 = n by omega]; exact hnl)
          rw [this] at htw
          exact Bool.noConfusion htw

theorem nlPair_shape {l : Str} (h : nlPair l = true) :
    ∃ t, l = '\n' :: '\n' :: t := by
  match l with
  | [] => simp [nlPair] at h
  | [a] => simp [nlPair] at h
  | a :: b :: t =>
    rw [nlPair, Bool.and_eq_true] at h
    exact ⟨t, by rw [eq_of_beq h.1, eq_of_beq h.2]⟩

theorem getLast?_tail {c : Char} {rest : Str} (h : rest ≠ []) :
    (c :: rest).getLast? = rest.getLast? := by
  cases rest with
  | nil => exact absurd rfl h
  | cons b t => exact List.getLast?_cons_cons

theorem noMatchLS_wsPlus : ∀ (cs : Str) (prev : Option Char),
    crlfFreeB cs = true → hasTrailWs cs = false → hasTriple cs = false →
    (∀ c, cs.getLast? = some c → jsWsB c = false) →
    (match prev with
     | none => ∀ c, cs.head? = some c → jsWsB c = false
     | some p => lineTermB p = true → nlPair cs = false) →
    NoMatchLS wsPlusDollar cs
      (match prev with | none => true | some p => lineTermB p) := by
  intro cs
  induction cs with
  | nil => intro prev _ _ _ _ _; cases prev <;> trivial
  | cons c rest ih =>
    intro prev hcr htw htr hlast hprev
    have hcr' : crlfFreeB rest = true := by
      rw [crlfFreeB, List.all_cons, Bool.and_eq_true] at hcr
      exact hcr.2
    have hc0 : (!(c == '\r' || c == '\u2028' || c == '\u2029')) = true := by
      rw [crlfFreeB, List.all_cons, Bool.and_eq_true] at hcr
      exact hcr.1
    have hlast' : ∀ d, rest.getLast? = some d → jsWsB d = false := by
      intro d hd
      cases hrest : rest with
      | nil => rw [hrest] at hd; exact Option.noConfusion hd
      | cons b t =>
        apply hlast
        rw [getLast?_tail (by rw [hrest]; simp : rest ≠ [])]
        exact hd
    have hprev' : lineTermB c = true → nlPair rest = false := by
      intro hlt
      have hcn : c = '\n' := by
        rw [lineTermB_of_crlfFree hc0] at hlt
        exact eq_of_beq hlt
      cases hnp : nlPair rest with
      | false => rfl
      | true =>
        exfalso
        obtain ⟨t, ht⟩ := nlPair_shape hnp
        rw [hcn, ht, hasTriple] at htr
        simp [nlPair] at htr
    refine ⟨?_, ?_⟩
    · intro hf
      apply wsPlus_none_main (c :: rest) hcr htw htr hlast
      cases prev with
      | none => exact Or.inl (by simpa using hprev)
      | some p => exact Or.inr (hprev hf)
    · have := ih (some c) hcr' (hasTrailWs_cons_false htw)
        (hasTriple_cons_false htr) hlast' hprev'
      exact this

theorem jsTrim_head_not_ws (x : Str) {c : Char} {t : Str} (h : jsTrim x = c :: t) :
    jsWsB c = false := by
  have h1 := List.takeWhile_append_dropWhile (p := jsWsB)
    (l := (x.dropWhile jsWsB).reverse)
  have h2 := congrArg List.reverse h1
  rw [List.reverse_append, List.reverse_reverse] at h2
  have h3 : (jsTrim x) ++
      ((x.dropWhile jsWsB).reverse.takeWhile jsWsB).reverse = x.dropWhile jsWsB := by
    rw [jsTrim]
    exact h2
  rw [h, List.cons_append] at h3
  exact dropWhile_head_false x h3.symm

theorem jsTrim_last_not_ws (x : Str) {c : Char}
    (h : (jsTrim x).getLast? = some c) : jsWsB c = false := by
  rw [← List.head?_reverse] at h
  have hrv : (jsTrim x).reverse = ((x.dropWhile jsWsB).reverse).dropWhile jsWsB := by
    rw [jsTrim, List.reverse_reverse]
  rw [hrv] at h
  cases hd : ((x.dropWhile jsWsB).reverse).dropWhile jsWsB with
  | nil => rw [hd] at h; exact Option.noConfusion h
  | cons a t =>
    rw [hd] at h
    injection h with h1
    rw [← h1]
    exact dropWhile_head_false _ hd

theorem splitNl_chars : ∀ (cs : Str) (l : Str), l ∈ splitNl cs → ∀ c ∈ l, c ∈ cs := by
  intro cs
  induction cs with
  | nil =>
    intro l hl c hc
    simp [splitNl] at hl
    subst hl
    simp at hc
  | cons a rest ih =>
    intro l hl c hc
    rw [splitNl] at hl
    by_cases ha : a = '\n'
    · rw [if_pos ha] at hl
      rcases List.mem_cons.mp hl with h1 | h2
      · subst h1; simp at hc
      · exact List.mem_cons_of_mem a (ih l h2 c hc)
    · rw [if_neg ha] at hl
      cases hsp : splitNl rest with
      | nil => exact absurd hsp (splitNl_ne_nil rest)
      | cons l0 ls =>
        rw [hsp] at hl
        rcases List.mem_cons.mp hl with h1 | h2
        · subst h1
          rcases List.mem_cons.mp hc with h3 | h4
          · subst h3; exact List.mem_cons_self _ _
          · refine List.mem_cons_of_mem a (ih l0 ?_ c h4)
            rw [hsp]
            exact List.mem_cons_self _ _
        · refine List.mem_cons_of_mem a (ih l ?_ c hc)
          rw [hsp]
          exact List.mem_cons_of_mem _ h2

theorem jsTrim_subset {l : Str} {c : Char} (hc : c ∈ jsTrim l) : c ∈ l := by
  rw [jsTrim, List.mem_reverse] at hc
  have h1 := (List.dropWhile_sublist (l := (l.dropWhile jsWsB).reverse) jsWsB).subset hc
  rw [List.mem_reverse] at h1
  exact (List.dropWhile_sublist jsWsB).subset h1

theorem no_marker_lines {cs : Str} (h : cs.all (fun c => !(c == '✦')) = true) :
    (splitNl cs).all (fun l => !isMarkerLine l) = true := by
  rw [List.all_eq_true]
  intro l hl
  cases hm : isMarkerLine l with
  | false => simp
  | true =>
    exfalso
    rw [isMarkerLine] at hm
    have hm' : (jsTrim l).head? = some '✦' := eq_of_beq hm
    cases ht : jsTrim l with
    | nil => rw [ht] at hm'; exact Option.noConfusion hm'
    | cons a t =>
      rw [ht] at hm'
      injection hm' with h1
      have hmem : '✦' ∈ cs := by
        refine splitNl_chars cs l hl '✦' (jsTrim_subset ?_)
        rw [ht, ← h1]
        exact List.mem_cons_self a t
      rw [List.all_eq_true] at h
      have := h '✦' hmem
      simp at this

theorem afterExtract_id {t : Str}
    (h : (splitNl t).all (fun l => !isMarkerLine l) = true) : afterExtract t = t := by
  have hb := extractLoop_false (splitNl t) []
  rw [List.nil_append] at hb
  have hz : blocksWith captureAmended (splitNl t) = [] := by
    simp [blocksWith, markerGroups_eq_nil _ h]
  rw [afterExtract, hb, hz]
  simp

theorem wsLine_id (s : String) (hCrlf : crlfFreeB s.data = true)
    (hTw : hasTrailWs s.data = false) (hTr : hasTriple s.data = false)
    (hTrim : jsTrim s.data = s.data) :
    scanLS wsPlusDollar true s.data = s.data := by
  refine scanLS_id _ _ _ ?_
  have hlast : ∀ c, s.data.getLast? = some c → jsWsB c = false := by
    intro c hc
    rw [← hTrim] at hc
    exact jsTrim_last_not_ws s.data hc
  have hhead : ∀ c, s.data.head? = some c → jsWsB c = false := by
    intro c hc
    cases hd : s.data with
    | nil => rw [hd] at hc; exact Option.noConfusion hc
    | cons a t =>
      rw [hd] at hc
      injection hc with hc1
      subst hc1
      exact jsTrim_head_not_ws s.data (by rw [hTrim, hd])
  exact noMatchLS_wsPlus s.data none hCrlf hTw hTr hlast hhead

/-- Every stage of the pipeline leaves already-clean text unchanged. -/
theorem cleanedList_fixed (s : String) (h : CleanText s) :
    cleanedList s.data = s.data := by
  obtain ⟨hEsc, hSpin, hBox, hMark, hCheck, hCrlf, hCred, hUsing, hDir, hSand,
    hAuto, hRead, hType, hShort, hTry, hGt, hTw, hTr, hTrim⟩ := h
  rw [cleanedList]
  have e1 : scanAll tryCsiColor s.data = s.data :=
    scanAll_id _ _ (allFail_of_head _ (fun s' n hn => tryCsiColor_head hn) hEsc)
  have e2 : scanAll tryCsiMode s.data = s.data :=
    scanAll_id _ _ (allFail_of_head _ (fun s' n hn => tryCsiMode_head hn) hEsc)
  have e3 : scanAll tryCsiCursor s.data = s.data :=
    scanAll_id _ _ (allFail_of_head _ (fun s' n hn => tryCsiCursor_head hn) hEsc)
  have e4 : scanAll tryOsc s.data = s.data :=
    scanAll_id _ _ (allFail_of_head _ (fun s' n hn => tryOsc_head hn) hEsc)
  have e5 : scanAll tryCreds s.data = s.data :=
    scanAll_id _ _ (allFail_of_pre _ (fun s' n hn => tryCreds_pre hn) hCred)
  have e6 : s.data.filter (fun c => !spinnerB c) = s.data := by
    rw [List.filter_eq_self]
    rw [List.all_eq_true] at hSpin
    exact hSpin
  have e7 : s.data.filter (fun c => !boxB c) = s.data := by
    rw [List.filter_eq_self]
    rw [List.all_eq_true] at hBox
    exact hBox
  have e8 : scanLS tryUsing true s.data = s.data :=
    scanLS_id _ _ _ (noMatchLS_of_allFail _ _ _
      (allFail_of_pre _ (fun s' n hn => tryUsing_pre hn) hUsing))
  have e9 : scanLS tryDirStatus true s.data = s.data :=
    scanLS_id _ _ _ (noMatchLS_of_allFail _ _ _
      (allFail_of_pre _ (fun s' n hn => tryDirStatus_pre hn) hDir))
  have e10 : scanLS tryNoSandbox true s.data = s.data :=
    scanLS_id _ _ _ (noMatchLS_of_allFail _ _ _ (allFail_noSandbox hSand))
  have e11 : scanLS tryAuto true s.data = s.data :=
    scanLS_id _ _ _ (noMatchLS_of_allFail _ _ _
      (allFail_of_pre _ (fun s' n hn => tryAuto_pre hn) hAuto))
  have e12 : scanLS tryReading true s.data = s.data :=
    scanLS_id _ _ _ (noMatchLS_of_allFail _ _ _
      (allFail_of_pre _ (fun s' n hn => tryReading_pre hn) hRead))
  have e13 : scanLS tryTypeMsg true s.data = s.data :=
    scanLS_id _ _ _ (noMatchLS_of_allFail _ _ _
      (allFail_of_pre _ (fun s' n hn => tryTypeMsg_pre hn) hType))
  have e14 : scanLS tryGtType true s.data = s.data :=
    scanLS_id _ _ _ (noMatchLS_of_allFail _ _ _
      (allFail_of_pre _ (fun s' n hn => tryGtType_pre hn) hType))
  have e15 : scanLS tryShortcuts true s.data = s.data :=
    scanLS_id _ _ _ (noMatchLS_of_allFail _ _ _
      (allFail_of_pre _ (fun s' n hn => tryShortcuts_pre hn) hShort))
  have e16 : scanLS tryTrySugg true s.data = s.data :=
    scanLS_id _ _ _ (noMatchLS_of_allFail _ _ _
      (allFail_of_pre _ (fun s' n hn => tryTrySugg_pre hn) hTry))
  have e17 : scanLS tryToolStatus true s.data = s.data :=
    scanLS_id _ _ _ (noMatchLS_of_allFail _ _ _ (allFail_toolStatus hCheck))
  have e18 : scanLS tryPrompt true s.data = s.data := by
    refine scanLS_id _ _ _ (noMatchLS_of_lineHeads _ tryPrompt_fail s.data true ?_)
    exact lineHeads_of_lines (by rfl) s.data true hCrlf (by simpa using hGt)
  have echrome : chromeStrip s.data = s.data := by
    rw [chromeStrip, e1, e2, e3, e4, e5, e6, e7, e8, e9, e10, e11, e12, e13,
      e14, e15, e16, e17, e18]
  have eextract : afterExtract s.data = s.data := afterExtract_id (no_marker_lines hMark)
  have ecollapse : collapseNl s.data = s.data := collapseNl_of_noTriple _ hTr
  have ewsline : scanLS wsPlusDollar true s.data = s.data :=
    wsLine_id s hCrlf hTw hTr hTrim
  rw [echrome, eextract, ecollapse, ewsline, hTrim]

/-- Claim C1 (amended): `cleanResponse` returns already-clean text (in the
sense of `CleanText`) unchanged, hence is idempotent on clean text; on
arbitrary strings idempotence fails (see the counterexample). -/
theorem C1_clean_fixed (s : String) (h : CleanText s) : cleanResponse s = s := by
  dsimp only [cleanResponse]
  rw [cleanedList_fixed s h]

theorem C1_clean_fixed_witness :
    CleanText "Hello world.\n\n  Two plus two is four.\nBye." ∧
    cleanResponse "Hello world.\n\n  Two plus two is four.\nBye." =
      "Hello world.\n\n  Two plus two is four.\nBye." :=
  ⟨by decide, C1_clean_fixed "Hello world.\n\n  Two plus two is four.\nBye." (by decide)⟩
